import Mathlib

/-!
# robokassa-go: the signature protocol of `robokassa.go`

A shallow embedding of `src/robokassa.go` and proofs about it.

Conventions of the embedding.

* A Go `string` is a Lean `String`, a sequence of Unicode code points: the
  embedding covers strings that are valid UTF-8 text.  Go compares strings
  byte by byte; on valid UTF-8 that is the order of the code points, which
  is the order `strLt` below implements.
* A Go `map[string]T` is a list of key-value pairs with pairwise distinct
  keys.  The order of the list stands for the (unspecified) order in which
  `range` visits the map, so a statement proved for every list is proved for
  every iteration order.
* An `interface{}` value is a `Value`: the scalar kinds that the program
  stores, reads or receives (nil, string, int, float64, bool).
* A `float64` is a `Float64`: the decoded form of an IEEE-754 binary64.
* A `panic` is not an error return: functions that can panic return an
  `Except Panic _`, and functions that can return a Go `error` return it as
  an `Option Err` next to the value, as the Go signature does.
-/

set_option autoImplicit false

namespace Robokassa

/-! ## Strings: comparison, `sort.Strings`, `strings.HasPrefix`, `strings.Join` -/

/-- Lexicographic "strictly less" on code-point sequences (Go: `a < b` on strings). -/
def charsLt : List Char → List Char → Bool
  | [], [] => false
  | [], _ :: _ => true
  | _ :: _, [] => false
  | a :: as, b :: bs =>
    if a.toNat < b.toNat then true
    else if b.toNat < a.toNat then false
    else charsLt as bs

/-- Go's `a < b` on strings. -/
def strLt (a b : String) : Bool := charsLt a.data b.data

/-- Go's `a <= b` on strings, i.e. `!(b < a)`. -/
def strLe (a b : String) : Bool := !strLt b a

/-- Insert a string in an ascending list, before the first element that is not smaller. -/
def insertString (x : String) : List String → List String
  | [] => [x]
  | y :: ys => if strLe x y then x :: y :: ys else y :: insertString x ys

/-- The function `sort.Strings`: the list in ascending order.  Equal strings are
indistinguishable, so every sorting algorithm returns this list. -/
def sortStrings : List String → List String
  | [] => []
  | x :: xs => insertString x (sortStrings xs)

/-- The function `strings.HasPrefix`. -/
def hasPrefix (s pre : String) : Bool := pre.data.isPrefixOf s.data

/-- The function `strings.Join`. -/
def joinStrings (sep : String) : List String → String
  | [] => ""
  | [x] => x
  | x :: y :: rest => x ++ sep ++ joinStrings sep (y :: rest)

/-- Concatenation of a list of strings, left to right (repeated `+=`). -/
def concatStrings : List String → String
  | [] => ""
  | x :: xs => x ++ concatStrings xs

/-! ## Maps -/

/-- The lookup `m[k]` with the comma-ok flag: `none` when the key is absent. -/
def mapGet {α : Type} (m : List (String × α)) (k : String) : Option α :=
  match m with
  | [] => none
  | (k', v) :: rest => if k' = k then some v else mapGet rest k

/-- The assignment `m[k] = v`: replaces the value of an existing key, adds a new key. -/
def mapSet {α : Type} (m : List (String × α)) (k : String) (v : α) : List (String × α) :=
  match m with
  | [] => [(k, v)]
  | (k', v') :: rest => if k' = k then (k, v) :: rest else (k', v') :: mapSet rest k v

/-- The keys of a map, in iteration order. -/
def mapKeys {α : Type} (m : List (String × α)) : List String := m.map Prod.fst

/-- A well-formed map has pairwise distinct keys. -/
def MapWF {α : Type} (m : List (String × α)) : Prop := (mapKeys m).Nodup

instance {α : Type} (m : List (String × α)) : Decidable (MapWF m) := by
  unfold MapWF; infer_instance

/-! ## float64 -/

/-- A decoded IEEE-754 binary64: `finite neg mant exp` is `(-1)^neg * mant * 2^exp`. -/
inductive Float64 where
  | finite (neg : Bool) (mant : Nat) (exp : Int)
  | inf (neg : Bool)
  | nan
  deriving DecidableEq, Repr

namespace Float64

/-- Go's `x <= 0`: false on NaN. -/
def leZero : Float64 → Bool
  | .finite neg mant _ => neg || mant == 0
  | .inf neg => neg
  | .nan => false

/-- Go's `x > 0`: false on NaN. -/
def gtZero : Float64 → Bool
  | .finite neg mant _ => !neg && mant != 0
  | .inf neg => !neg
  | .nan => false

end Float64

/-- Decimal digits of a natural number, least significant first, `fuel` bounds the length. -/
def digitsRev : Nat → Nat → List Nat
  | 0, _ => []
  | fuel + 1, n => if n < 10 then [n] else (n % 10) :: digitsRev fuel (n / 10)

/-- The character of a decimal digit. -/
def digitChar (d : Nat) : Char := Char.ofNat (48 + d)

/-- Decimal text of a natural number (`%d` on a non-negative integer). -/
def natToString (n : Nat) : String :=
  String.mk ((digitsRev (n + 1) n).reverse.map digitChar)

/-- Decimal text of an integer (`%d`). -/
def intToString : Int → String
  | .ofNat n => natToString n
  | .negSucc n => "-" ++ natToString (n + 1)

/-- The integer nearest to `num / den`, ties to the even one (`den > 0`). -/
def roundHalfEven (num den : Nat) : Nat :=
  let q := num / den
  let r := num % den
  if 2 * r > den then q + 1
  else if 2 * r = den then (if q % 2 = 1 then q + 1 else q)
  else q

/-- The hundredths `round(mant * 2^exp * 100)` of a finite magnitude. -/
def hundredths (mant : Nat) (exp : Int) : Nat :=
  match exp with
  | .ofNat e => mant * 2 ^ e * 100
  | .negSucc e => roundHalfEven (mant * 100) (2 ^ (e + 1))

/-- Two decimal digits. -/
def twoDigits (n : Nat) : String := String.mk [digitChar (n / 10 % 10), digitChar (n % 10)]

/-- The verb `%0.2f` of `fmt.Sprintf` on a float64: the exact value rounded to two
fractional digits (ties to even), never in scientific notation. -/
def fmtFixed2 : Float64 → String
  | .nan => "NaN"
  | .inf neg => if neg then "-Inf" else "+Inf"
  | .finite neg mant exp =>
    let h := hundredths mant exp
    (if neg then "-" else "") ++ natToString (h / 100) ++ "." ++ twoDigits h

/-! ## UTF-8, `crypto/md5`, `encoding/hex` -/

/-- The UTF-8 bytes of a code point. -/
def utf8Char (c : Char) : List Nat :=
  let n := c.toNat
  if n < 0x80 then [n]
  else if n < 0x800 then [0xC0 + n / 64, 0x80 + n % 64]
  else if n < 0x10000 then [0xE0 + n / 4096, 0x80 + n / 64 % 64, 0x80 + n % 64]
  else [0xF0 + n / 262144, 0x80 + n / 4096 % 64, 0x80 + n / 64 % 64, 0x80 + n % 64]

/-- The conversion `[]byte(s)`. -/
def stringBytes (s : String) : List Nat := s.data.flatMap utf8Char

/-- Addition of 32-bit words. -/
def add32 (a b : Nat) : Nat := (a + b) % 2 ^ 32

/-- Left rotation of a 32-bit word. -/
def rotl32 (x s : Nat) : Nat := ((x <<< s) % 2 ^ 32) ||| (x >>> (32 - s))

/-- Bitwise complement of a 32-bit word. -/
def not32 (x : Nat) : Nat := x ^^^ 0xFFFFFFFF

/-- The per-step rotation amounts of MD5. -/
def md5Shifts : List Nat :=
  [7, 12, 17, 22, 7, 12, 17, 22, 7, 12, 17, 22, 7, 12, 17, 22,
   5, 9, 14, 20, 5, 9, 14, 20, 5, 9, 14, 20, 5, 9, 14, 20,
   4, 11, 16, 23, 4, 11, 16, 23, 4, 11, 16, 23, 4, 11, 16, 23,
   6, 10, 15, 21, 6, 10, 15, 21, 6, 10, 15, 21, 6, 10, 15, 21]

/-- The per-step additive constants of MD5, `floor(2^32 * |sin (i + 1)|)`. -/
def md5Consts : List Nat :=
  [0xd76aa478, 0xe8c7b756, 0x242070db, 0xc1bdceee, 0xf57c0faf, 0x4787c62a, 0xa8304613, 0xfd469501,
   0x698098d8, 0x8b44f7af, 0xffff5bb1, 0x895cd7be, 0x6b901122, 0xfd987193, 0xa679438e, 0x49b40821,
   0xf61e2562, 0xc040b340, 0x265e5a51, 0xe9b6c7aa, 0xd62f105d, 0x02441453, 0xd8a1e681, 0xe7d3fbc8,
   0x21e1cde6, 0xc33707d6, 0xf4d50d87, 0x455a14ed, 0xa9e3e905, 0xfcefa3f8, 0x676f02d9, 0x8d2a4c8a,
   0xfffa3942, 0x8771f681, 0x6d9d6122, 0xfde5380c, 0xa4beea44, 0x4bdecfa9, 0xf6bb4b60, 0xbebfbc70,
   0x289b7ec6, 0xeaa127fa, 0xd4ef3085, 0x04881d05, 0xd9d4d039, 0xe6db99e5, 0x1fa27cf8, 0xc4ac5665,
   0xf4292244, 0x432aff97, 0xab9423a7, 0xfc93a039, 0x655b59c3, 0x8f0ccc92, 0xffeff47d, 0x85845dd1,
   0x6fa87e4f, 0xfe2ce6e0, 0xa3014314, 0x4e0811a1, 0xf7537e82, 0xbd3af235, 0x2ad7d2bb, 0xeb86d391]

/-- The four chaining words of MD5. -/
structure Md5State where
  a : Nat
  b : Nat
  c : Nat
  d : Nat

/-- The initial chaining value. -/
def md5Init : Md5State := ⟨0x67452301, 0xefcdab89, 0x98badcfe, 0x10325476⟩

/-- One of the 64 steps of the compression function on the message words `m`. -/
def md5Step (m : List Nat) (st : Md5State) (i : Nat) : Md5State :=
  let f :=
    if i < 16 then (st.b &&& st.c) ||| (not32 st.b &&& st.d)
    else if i < 32 then (st.d &&& st.b) ||| (not32 st.d &&& st.c)
    else if i < 48 then st.b ^^^ st.c ^^^ st.d
    else st.c ^^^ (st.b ||| not32 st.d)
  let g :=
    if i < 16 then i
    else if i < 32 then (5 * i + 1) % 16
    else if i < 48 then (3 * i + 5) % 16
    else (7 * i) % 16
  let f := add32 (add32 (add32 f st.a) (md5Consts.getD i 0)) (m.getD g 0)
  ⟨st.d, add32 st.b (rotl32 f (md5Shifts.getD i 0)), st.b, st.c⟩

/-- Little-endian 32-bit words of a byte sequence. -/
def wordsLE : List Nat → List Nat
  | b0 :: b1 :: b2 :: b3 :: rest => (b0 + 256 * b1 + 65536 * b2 + 16777216 * b3) :: wordsLE rest
  | _ => []

/-- The compression of one 64-byte block. -/
def md5Block (st : Md5State) (block : List Nat) : Md5State :=
  let r := (List.range 64).foldl (md5Step (wordsLE block)) st
  ⟨add32 st.a r.a, add32 st.b r.b, add32 st.c r.c, add32 st.d r.d⟩

/-- The bytes of `n`, least significant first, `k` of them. -/
def bytesLE : Nat → Nat → List Nat
  | 0, _ => []
  | k + 1, n => (n % 256) :: bytesLE k (n / 256)

/-- The padded message: a `0x80` byte, zeros up to 56 modulo 64, the bit length on 8 bytes. -/
def md5Pad (msg : List Nat) : List Nat :=
  let len := msg.length
  msg ++ [0x80] ++ List.replicate ((119 - len % 64) % 64) 0 ++ bytesLE 8 (8 * len % 2 ^ 64)

/-- Fold the compression function over the 64-byte blocks of the padded message. -/
def md5Blocks : Nat → Md5State → List Nat → Md5State
  | 0, st, _ => st
  | n + 1, st, bytes => md5Blocks n (md5Block st (bytes.take 64)) (bytes.drop 64)

/-- The function `md5.Sum`: the 16 bytes of the digest. -/
def md5Sum (msg : List Nat) : List Nat :=
  let padded := md5Pad msg
  let st := md5Blocks (padded.length / 64) md5Init padded
  bytesLE 4 st.a ++ bytesLE 4 st.b ++ bytesLE 4 st.c ++ bytesLE 4 st.d

/-- A lowercase hexadecimal digit. -/
def hexDigit (n : Nat) : Char := if n < 10 then Char.ofNat (48 + n) else Char.ofNat (87 + n)

/-- The function `hex.EncodeToString`: two lowercase hexadecimal digits per byte. -/
def hexEncode (bytes : List Nat) : String :=
  String.mk (bytes.flatMap fun b => [hexDigit (b / 16 % 16), hexDigit (b % 16)])

/-- The composition `hex.EncodeToString(md5.Sum([]byte(s)))` both signers use. -/
def md5Hex (s : String) : String := hexEncode (md5Sum (stringBytes s))

/-! ## `interface{}` values and the verb `%v` -/

/-- Number of decimal digits of a natural number (`0` has one). -/
def numDigits (n : Nat) : Nat := (digitsRev (n + 1) n).length

/-- Number of binary digits of a natural number (`0` has none), `fuel` bounds it. -/
def bitLength : Nat → Nat → Nat
  | 0, _ => 0
  | fuel + 1, n => if n = 0 then 0 else bitLength fuel (n / 2) + 1

/-- The normal form of a finite non-zero magnitude `mant * 2^exp`: the mantissa is brought
to 53 bits, or the exponent to the least one, `-1074`. -/
def normalize (mant : Nat) (exp : Int) : Nat × Int :=
  let b := bitLength (mant + 1) mant - 1
  if b < 52 then
    let sh := min (52 - b) (exp + 1074).toNat
    (mant <<< sh, exp - sh)
  else (mant >>> (b - 52), exp + ((b - 52 : Nat) : Int))

/-- The decimal candidates at unit `10^q` for a value `x` with neighbours' midpoints `lo`
and `hi`, all three given as numerators over the common denominator `den`: the multiple of
`10^q` that reads back as `x`, the nearest to `x` if there are two, if there is one. -/
def shortestAt (x lo hi den : Nat) (inclusive : Bool) (q : Int) : Option Nat :=
  let a := match q with
    | .ofNat k => den * 10 ^ k
    | .negSucc _ => den
  let b := match q with
    | .ofNat _ => 1
    | .negSucc k => 10 ^ (k + 1)
  let inside := fun (k : Nat) =>
    if inclusive then decide (lo * b ≤ k * a) && decide (k * a ≤ hi * b)
    else decide (lo * b < k * a) && decide (k * a < hi * b)
  let kd := x * b / a
  let ku := kd + 1
  let nearUp := decide (ku * a - x * b < x * b - kd * a) ||
    (decide (ku * a - x * b = x * b - kd * a) && kd % 2 == 1)
  if inside kd && inside ku then some (if nearUp then ku else kd)
  else if inside kd then some kd
  else if inside ku then some ku
  else none

/-- Search the units `10^q`, `10^(q-1)`, ... for the first with a candidate. -/
def shortestSearch (x lo hi den : Nat) (inclusive : Bool) : Nat → Int → Nat × Int
  | 0, q => (0, q)
  | fuel + 1, q =>
    match shortestAt x lo hi den inclusive q with
    | some k => (k, q)
    | none => shortestSearch x lo hi den inclusive fuel (q - 1)

/-- The shortest decimal `k * 10^q` that reads back as the float64 `mant * 2^exp`
(`mant > 0`), the nearest to it among the shortest: the digits `strconv` prints for
precision `-1`. -/
def shortestDecimal (mant : Nat) (exp : Int) : Nat × Int :=
  let (m, e) := normalize mant exp
  let boundary := decide (m = 2 ^ 52) && decide (e > -1074)
  -- numerators over `2^(e-2)`
  let x := 4 * m
  let hi := 4 * m + 2
  let lo := if boundary then 4 * m - 1 else 4 * m - 2
  let scale := match e - 2 with
    | .ofNat k => 2 ^ k
    | .negSucc _ => 1
  let den := match e - 2 with
    | .ofNat _ => 1
    | .negSucc k => 2 ^ (k + 1)
  shortestSearch (x * scale) (lo * scale) (hi * scale) den (m % 2 == 0) 1200
    (numDigits (hi * scale / den) : Int)

/-- The digits of `k` with the decimal point after the first of them, `%e` without the
exponent part. -/
def mantissaText (digits : List Char) : String :=
  match digits with
  | [] => "0"
  | [d] => String.mk [d]
  | d :: rest => String.mk (d :: '.' :: rest)

/-- The verb `%v` on a float64, which is `%g` with the shortest precision: plain decimal
when the decimal exponent is in `-4 .. 5`, scientific notation otherwise. -/
def fmtFloatV : Float64 → String
  | .nan => "NaN"
  | .inf neg => if neg then "-Inf" else "+Inf"
  | .finite neg mant exp =>
    let sign := if neg then "-" else ""
    if mant = 0 then sign ++ "0"
    else
      let (k, q) := shortestDecimal mant exp
      let digits := (natToString k).data
      let nd : Int := digits.length
      let x10 := nd + q - 1
      if x10 < -4 ∨ x10 ≥ 6 then
        sign ++ mantissaText digits ++ (if x10 < 0 then "e-" else "e+") ++
          (if x10.natAbs < 10 then "0" else "") ++ natToString x10.natAbs
      else if q ≥ 0 then
        sign ++ String.mk (digits ++ List.replicate q.toNat '0')
      else if nd + q > 0 then
        sign ++ String.mk (digits.take (nd + q).toNat ++ '.' :: digits.drop (nd + q).toNat)
      else
        sign ++ String.mk ('0' :: '.' :: List.replicate (-(nd + q)).toNat '0' ++ digits)

/-- A value of type `interface{}`, of one of the kinds the program handles. -/
inductive Value where
  | nil
  | str (s : String)
  | int (n : Int)
  | float (f : Float64)
  | bool (b : Bool)
  deriving DecidableEq, Repr

/-- The verb `%v` of `fmt.Sprintf`. -/
def fmtV : Value → String
  | .nil => "<nil>"
  | .str s => s
  | .int n => intToString n
  | .float f => fmtFloatV f
  | .bool b => if b then "true" else "false"

/-- The index expression `m[k]` on a `map[string]interface{}`: nil when the key is absent. -/
def mapIndex (m : List (String × Value)) (k : String) : Value := (mapGet m k).getD .nil

/-- The type assertion `v.(float64)` with the comma-ok flag. -/
def asFloat64 : Value → Option Float64
  | .float f => some f
  | _ => none

/-- The type assertion `v.(string)` with the comma-ok flag. -/
def asString : Value → Option String
  | .str s => some s
  | _ => none

/-- The type assertion `v.(int)` with the comma-ok flag. -/
def asInt : Value → Option Int
  | .int n => some n
  | _ => none

/-! ## `net/url` -/

/-- An uppercase hexadecimal digit. -/
def upperHexDigit (n : Nat) : Char := if n < 10 then Char.ofNat (48 + n) else Char.ofNat (55 + n)

/-- The bytes `url.QueryEscape` leaves as they are: letters, digits, `-`, `_`, `.`, `~`. -/
def isUnreserved (b : Nat) : Bool :=
  (decide (48 ≤ b) && decide (b ≤ 57)) || (decide (65 ≤ b) && decide (b ≤ 90)) ||
  (decide (97 ≤ b) && decide (b ≤ 122)) || b == 45 || b == 95 || b == 46 || b == 126

/-- The escape of one byte in a query component. -/
def escapeByte (b : Nat) : List Char :=
  if isUnreserved b then [Char.ofNat b]
  else if b = 32 then ['+']
  else ['%', upperHexDigit (b / 16 % 16), upperHexDigit (b % 16)]

/-- The function `url.QueryEscape`. -/
def queryEscape (s : String) : String := String.mk ((stringBytes s).flatMap escapeByte)

/-- A `url.Values` filled with `Set` from the entries of a map, in iteration order. -/
def valuesOf {α : Type} (f : α → String) (m : List (String × α)) : List (String × String) :=
  m.foldl (fun acc kv => mapSet acc kv.1 (f kv.2)) []

/-- The method `url.Values.Encode`: `key=value` pairs, both escaped, joined by `&`, in
ascending order of the keys. -/
def valuesEncode (vals : List (String × String)) : String :=
  joinStrings "&" ((sortStrings (mapKeys vals)).map fun k =>
    queryEscape k ++ "=" ++ queryEscape ((mapGet vals k).getD ""))

/-! ## `strings.EqualFold` -/

/-- Equality of two runes under simple case folding.  Two ASCII runes are equal when they
are the same letter in upper and lower case.  When the larger rune is not ASCII, Go walks
the `unicode.SimpleFold` orbit of the smaller one; that table is not part of the program and
`foldOrbit lo hi` stands for "the orbit of `lo` reaches `hi`". -/
def foldEqRune (foldOrbit : Char → Char → Bool) (sr tr : Char) : Bool :=
  if tr = sr then true
  else
    let lo := if tr.toNat < sr.toNat then tr else sr
    let hi := if tr.toNat < sr.toNat then sr else tr
    if hi.toNat < 0x80 then
      decide (65 ≤ lo.toNat) && decide (lo.toNat ≤ 90) && decide (hi.toNat = lo.toNat + 32)
    else foldOrbit lo hi

/-- The function `strings.EqualFold` on the runes of its two arguments. -/
def equalFoldChars (foldOrbit : Char → Char → Bool) : List Char → List Char → Bool
  | [], [] => true
  | s :: ss, t :: ts => foldEqRune foldOrbit s t && equalFoldChars foldOrbit ss ts
  | _, _ => false

/-- The function `strings.EqualFold`. -/
def equalFold (foldOrbit : Char → Char → Bool) (s t : String) : Bool :=
  equalFoldChars foldOrbit s.data t.data

/-- A fold table without any non-ASCII pair, for evaluating examples on ASCII input. -/
def asciiOrbit : Char → Char → Bool := fun _ _ => false

/-! ## The program -/

/-- The error values of the package. -/
inductive Err where
  | InvalidSum
  | EmptyDescription
  | InvalidInvoiceId
  | EmptyReceipt
  | InvalidParam
  deriving DecidableEq, Repr

/-- What a call can panic with: `panic(err)` on one of the package's errors, or the
run-time error of a failed single-value type assertion. -/
inductive Panic where
  | err (e : Err)
  | typeAssertion
  deriving DecidableEq, Repr

deriving instance DecidableEq for Except

/-- The struct `Payment`. -/
structure Payment where
  baseUrl : String
  baseInitRecurringUrl : String
  baseRecurringUrl : String
  valid : Bool
  data : List (String × Value)
  isTestMode : Bool
  customParams : List (String × String)
  login : String
  paymentPassword : String
  validationPassword : String
  deriving DecidableEq, Repr

/-- The constant `CultureRu`. -/
def CultureRu : String := "ru"

/-- The constant `CultureEn`. -/
def CultureEn : String := "en"

/-- The constructor `NewPayment`. -/
def NewPayment (login paymentPassword validationPassword : String) (testMode : Bool) : Payment :=
  { baseUrl := "https://auth.robokassa.ru/Merchant/Index.aspx?"
    baseInitRecurringUrl := "https://auth.robokassa.ru/Merchant/Index.aspx?"
    baseRecurringUrl := "https://auth.robokassa.ru/Merchant/Recurring"
    valid := false
    isTestMode := testMode
    data := [("MerchantLogin", .str login), ("InvId", .int 0), ("OutSum", .float (.finite false 0 0)),
      ("Desc", .str ""), ("SignatureValue", .str ""), ("Encoding", .str "utf-8"),
      ("Culture", .str CultureRu), ("IncCurrLabel", .str ""), ("IsTest", .bool testMode),
      ("Receipt", .nil)]
    customParams := []
    login := login
    paymentPassword := paymentPassword
    validationPassword := validationPassword }

/-- The segment `":" + k + "=" + customParams[k]` that `getSignValue` appends for a key. -/
def signSegment (customParams : List (String × String)) (k : String) : String :=
  ":" ++ k ++ "=" ++ (mapGet customParams k).getD ""

/-- Lines 96-126 of `getSignValue`: the four checks, then the string that is hashed. -/
def signatureInput (p : Payment) : Except Panic String :=
  match asFloat64 (mapIndex p.data "OutSum") with
  | none => .error (.err .InvalidSum)
  | some outSum =>
    if outSum.leZero then .error (.err .InvalidSum)
    else match asString (mapIndex p.data "Desc") with
      | none => .error (.err .EmptyDescription)
      | some desc =>
        if desc = "" then .error (.err .EmptyDescription)
        else match asInt (mapIndex p.data "InvId") with
          | none => .error (.err .InvalidInvoiceId)
          | some invId =>
            if invId ≤ 0 then .error (.err .InvalidInvoiceId)
            else match asString (mapIndex p.data "Receipt") with
              | none => .error (.err .EmptyReceipt)
              | some receipt =>
                if receipt = "" then .error (.err .EmptyReceipt)
                else
                  let signature := p.login ++ ":" ++ fmtFixed2 outSum ++ ":" ++ intToString invId
                    ++ ":" ++ receipt ++ ":" ++ p.paymentPassword
                  if p.customParams.length > 0 then
                    .ok (signature ++ concatStrings
                      ((sortStrings (mapKeys p.customParams)).map (signSegment p.customParams)))
                  else .ok signature

/-- The method `getSignValue`: the lowercase hexadecimal MD5 of the signing string. -/
def getSignValue (p : Payment) : Except Panic String :=
  match signatureInput p with
  | .error e => .error e
  | .ok signature => .ok (md5Hex signature)

/-- The method `GetPaymentUrl`: the state after the call, and either the panic that ended
it or the returned pair of URL and error. -/
def GetPaymentUrl (p : Payment) (paymentType : String) :
    Payment × Except Panic (String × Option Err) :=
  match getSignValue p with
  | .error e => (p, .error e)
  | .ok sig =>
    let p1 := { p with data := mapSet p.data "SignatureValue" (.str sig) }
    let data := valuesOf fmtV p1.data
    let custom := valuesOf id p1.customParams
    if paymentType = "base" then
      (p1, .ok (p1.baseUrl ++ valuesEncode data ++ "&" ++ valuesEncode custom, none))
    else if paymentType = "init_recurring" then
      (p1, .ok (p1.baseInitRecurringUrl ++ valuesEncode data ++ "&" ++ valuesEncode custom, none))
    else if paymentType = "recurring" then
      (p1, .ok (p1.baseRecurringUrl, none))
    else (p1, .ok ("", some .InvalidParam))

/-- The function `mergeMaps`. -/
def mergeMaps (m1 m2 : List (String × Value)) : List (String × Value) :=
  m2.foldl (fun acc kv => mapSet acc kv.1 kv.2) (m1.foldl (fun acc kv => mapSet acc kv.1 kv.2) [])

/-- The function `convertMapStringToInterface`. -/
def convertMapStringToInterface (m : List (String × String)) : List (String × Value) :=
  m.foldl (fun acc kv => mapSet acc kv.1 (.str kv.2)) []

/-- The method `GetPaymentRecurringParams`. -/
def GetPaymentRecurringParams (p : Payment) :
    Payment × Except Panic (List (String × Value) × Option Err) :=
  match getSignValue p with
  | .error e => (p, .error e)
  | .ok sig =>
    let p1 := { p with data := mapSet p.data "SignatureValue" (.str sig) }
    (p1, .ok (mergeMaps p1.data (convertMapStringToInterface p1.customParams), none))

/-- The method `getCustomParamsString`: the `key=value` texts of the fields whose key starts
with `shp_`, sorted as whole texts, each preceded by a colon. -/
def getCustomParamsString (source : List (String × Value)) : String :=
  let params := (source.filter fun kv => hasPrefix kv.1 "shp_").map fun kv => kv.1 ++ "=" ++ fmtV kv.2
  let params := sortStrings params
  if params.length > 0 then ":" ++ joinStrings ":" params else ""

/-- Lines 141-146 of `validate`: the choice of the secret and the string that is hashed. -/
def validateInput (p : Payment) (data : List (String × Value)) (passwordType : String) : String :=
  let password := if passwordType = "validation" then p.validationPassword else p.paymentPassword
  fmtV (mapIndex data "OutSum") ++ ":" ++ fmtV (mapIndex data "InvId") ++ ":" ++ password
    ++ getCustomParamsString data

/-- The method `validate`: the state after the call, and either the panic of the type
assertion on `data["SignatureValue"]` or the returned boolean. -/
def validate (foldOrbit : Char → Char → Bool) (p : Payment) (data : List (String × Value))
    (passwordType : String) : Payment × Except Panic Bool :=
  let signature := validateInput p data passwordType
  match mapIndex data "SignatureValue" with
  | .str supplied =>
    let valid := equalFold foldOrbit (md5Hex signature) supplied
    ({ p with valid := valid }, .ok valid)
  | _ => (p, .error .typeAssertion)

/-- The method `ValidateResult`. -/
def ValidateResult (foldOrbit : Char → Char → Bool) (p : Payment) (data : List (String × Value)) :
    Payment × Except Panic Bool :=
  validate foldOrbit p data "validation"

/-- The method `ValidateSuccess`. -/
def ValidateSuccess (foldOrbit : Char → Char → Bool) (p : Payment) (data : List (String × Value)) :
    Payment × Except Panic Bool :=
  validate foldOrbit p data "payment"

/-- The method `IsValid`. -/
def IsValid (p : Payment) : Bool := p.valid

/-- The loop of `AddCustomParameters`: `customParams["shp_"+k] = v` for each pair of `params`,
in iteration order. -/
def addPrefixed (customParams params : List (String × String)) : List (String × String) :=
  params.foldl (fun acc kv => mapSet acc ("shp_" ++ kv.1) kv.2) customParams

/-- The method `AddCustomParameters`; `none` is the nil map. -/
def AddCustomParameters (p : Payment) (params : Option (List (String × String))) :
    Payment × Option Err :=
  match params with
  | none => (p, some .InvalidParam)
  | some ps =>
    ({ p with customParams := addPrefixed p.customParams ps }, none)

/-- The method `getInvoiceId`. -/
def getInvoiceId (p : Payment) : Int := (asInt (mapIndex p.data "InvId")).getD 0

/-- The method `GetSuccessAnswer`. -/
def GetSuccessAnswer (p : Payment) : String := "OK" ++ intToString (getInvoiceId p) ++ "\n"

/-- The method `GetCustomParam`: the value found in `data`, nil when there is none. -/
def GetCustomParam (p : Payment) (name : String) : Value :=
  let key := "shp_" ++ name
  match mapGet p.data key with
  | some val => val
  | none => .nil

/-- The method `SetInvoiceId`. -/
def SetInvoiceId (p : Payment) (id : Int) : Payment := { p with data := mapSet p.data "InvId" (.int id) }

/-- The method `SetPreviousInvoiceId`. -/
def SetPreviousInvoiceId (p : Payment) (id : Int) : Payment :=
  { p with data := mapSet p.data "PreviousInvoiceID" (.int id) }

/-- The method `GetDescription`. -/
def GetDescription (p : Payment) : String := (asString (mapIndex p.data "Desc")).getD ""

/-- The method `SetDescription`. -/
def SetDescription (p : Payment) (description : String) : Payment :=
  { p with data := mapSet p.data "Desc" (.str description) }

/-- The method `GetCulture`. -/
def GetCulture (p : Payment) : String := (asString (mapIndex p.data "Culture")).getD ""

/-- The method `SetCulture`. -/
def SetCulture (p : Payment) (culture : String) : Payment :=
  { p with data := mapSet p.data "Culture" (.str culture) }

/-- The method `GetCurrencyLabel`. -/
def GetCurrencyLabel (p : Payment) : String := (asString (mapIndex p.data "IncCurrLabel")).getD ""

/-- The method `SetCurrencyLabel`. -/
def SetCurrencyLabel (p : Payment) (label : String) : Payment :=
  { p with data := mapSet p.data "IncCurrLabel" (.str label) }

/-- The method `SetEmail`. -/
def SetEmail (p : Payment) (email : String) : Payment :=
  { p with data := mapSet p.data "Email" (.str email) }

/-- The method `SetRecurring`. -/
def SetRecurring (p : Payment) : Payment := { p with data := mapSet p.data "Recurring" (.bool true) }

/-- The method `GetSum`. -/
def GetSum (p : Payment) : Float64 := (asFloat64 (mapIndex p.data "OutSum")).getD (.finite false 0 0)

/-! ## float64 arithmetic and `SetSum` -/

namespace Float64

/-- The rational `num / den` is at least `2^l` (`den > 0`). -/
def ratGePow2 (num den : Nat) (l : Int) : Bool :=
  match l with
  | .ofNat k => decide (den * 2 ^ k ≤ num)
  | .negSucc k => decide (den ≤ num * 2 ^ (k + 1))

/-- The integer part of the binary logarithm of `num / den` (`num > 0`, `den > 0`). -/
def ratLog2 (num den : Nat) : Int :=
  let l : Int := (bitLength (num + 1) num : Int) - (bitLength (den + 1) den : Int)
  if ratGePow2 num den l then l else l - 1

/-- The float64 nearest to `(-1)^neg * num / den` (`den > 0`), ties to the even mantissa,
in normal form: a mantissa of 53 bits, or the least exponent `-1074`; infinite when the
rounded value exceeds the largest float64. -/
def ofRat (neg : Bool) (num den : Nat) : Float64 :=
  if num = 0 then .finite neg 0 0
  else
    let e0 := ratLog2 num den - 52
    let e := if e0 < -1074 then -1074 else e0
    let m := match e with
      | .ofNat k => roundHalfEven num (den * 2 ^ k)
      | .negSucc k => roundHalfEven (num * 2 ^ (k + 1)) den
    let m1 := if m = 2 ^ 53 then 2 ^ 52 else m
    let e1 := if m = 2 ^ 53 then e + 1 else e
    if e1 > 971 then .inf neg else .finite neg m1 e1

/-- The numerator of `mant * 2^exp` over `scaleDen exp`. -/
def scaleNum (mant : Nat) (exp : Int) : Nat :=
  match exp with
  | .ofNat k => mant * 2 ^ k
  | .negSucc _ => mant

/-- The denominator of `mant * 2^exp`: `1` or a power of two. -/
def scaleDen (exp : Int) : Nat :=
  match exp with
  | .ofNat _ => 1
  | .negSucc k => 2 ^ (k + 1)

/-- Go's `x * y` on float64. -/
def mul : Float64 → Float64 → Float64
  | .nan, _ => .nan
  | _, .nan => .nan
  | .inf n1, .inf n2 => .inf (n1 != n2)
  | .inf n1, .finite n2 m2 _ => if m2 = 0 then .nan else .inf (n1 != n2)
  | .finite n1 m1 _, .inf n2 => if m1 = 0 then .nan else .inf (n1 != n2)
  | .finite n1 m1 e1, .finite n2 m2 e2 =>
    ofRat (n1 != n2) (scaleNum m1 e1 * scaleNum m2 e2) (scaleDen e1 * scaleDen e2)

/-- Go's `x / y` on float64. -/
def div : Float64 → Float64 → Float64
  | .nan, _ => .nan
  | _, .nan => .nan
  | .inf _, .inf _ => .nan
  | .inf n1, .finite n2 _ _ => .inf (n1 != n2)
  | .finite n1 _ _, .inf n2 => .finite (n1 != n2) 0 0
  | .finite n1 m1 e1, .finite n2 m2 e2 =>
    if m2 = 0 then (if m1 = 0 then .nan else .inf (n1 != n2))
    else ofRat (n1 != n2) (scaleNum m1 e1 * scaleDen e2) (scaleDen e1 * scaleNum m2 e2)

/-- Go's `x == y` on float64: equality of the values, false on NaN, true on the two zeros. -/
def eq : Float64 → Float64 → Bool
  | .nan, _ => false
  | _, .nan => false
  | .inf n1, .inf n2 => n1 == n2
  | .inf _, .finite _ _ _ => false
  | .finite _ _ _, .inf _ => false
  | .finite n1 m1 e1, .finite n2 m2 e2 =>
    (m1 == 0 && m2 == 0) ||
    (n1 == n2 && scaleNum m1 e1 * scaleDen e2 == scaleNum m2 e2 * scaleDen e1)

/-- The conversion `float64(n)` of a 64-bit integer. -/
def ofInt (n : Int) : Float64 := ofRat (decide (n < 0)) n.natAbs 1

/-- The conversion `int(x)`, truncation toward zero, when the result fits 64 bits; for a
value that does not (too large, infinite, NaN) Go leaves the result to the implementation. -/
def toInt? : Float64 → Option Int
  | .nan => none
  | .inf _ => none
  | .finite neg mant exp =>
    let t : Int := (scaleNum mant exp / scaleDen exp : Nat)
    let n := if neg then -t else t
    if -(2 ^ 63 : Int) ≤ n ∧ n < 2 ^ 63 then some n else none

end Float64

/-- The value of a 64-bit two's complement integer with the bits of `n`. -/
def wrapInt64 (n : Int) : Int := (n + 2 ^ 63) % 2 ^ 64 - 2 ^ 63

/-- The conversion `int(x)`: `outOfRange x` is what the implementation returns when the
value does not fit. -/
def toInt (outOfRange : Float64 → Int) (x : Float64) : Int :=
  match x.toInt? with
  | some n => n
  | none => wrapInt64 (outOfRange x)

/-- The float64 constant `100`. -/
def hundred : Float64 := .finite false 100 0

/-- The first line of `SetSum`: `float64(int(sum*100)) / 100`. -/
def truncate2 (outOfRange : Float64 → Int) (sum : Float64) : Float64 :=
  Float64.div (Float64.ofInt (toInt outOfRange (Float64.mul sum hundred))) hundred

/-- The method `SetSum`. -/
def SetSum (outOfRange : Float64 → Int) (p : Payment) (sum : Float64) : Payment × Option Err :=
  let sum := truncate2 outOfRange sum
  if sum.gtZero then ({ p with data := mapSet p.data "OutSum" (.float sum) }, none)
  else (p, some .InvalidSum)

/-- The hundredths of the exact value of a float64, truncated toward zero:
`floor(100 * mant * 2^exp)`. -/
def exactHundredths : Float64 → Nat
  | .finite _ mant exp => Float64.scaleNum mant exp * 100 / Float64.scaleDen exp
  | _ => 0

/-- The conversion of out-of-range values on amd64: the least 64-bit integer. -/
def amd64OutOfRange : Float64 → Int := fun _ => -(2 ^ 63)

/-- The float64 of a decimal literal `num / den`. -/
def decimal (num den : Nat) : Float64 := Float64.ofRat false num den

/-! ## Vocabulary of the specification -/

/-- The standard fields of a Payment are present and valid: the amount is the float64 `a`
and `a > 0`, the description is the non-empty string `desc`, the invoice id is the integer
`inv` and `inv > 0`, the receipt is the non-empty string `receipt`. -/
def ValidFields (p : Payment) (a : Float64) (desc : String) (inv : Int) (receipt : String) : Prop :=
  mapIndex p.data "OutSum" = .float a ∧ a.gtZero = true ∧
  mapIndex p.data "Desc" = .str desc ∧ desc ≠ "" ∧
  mapIndex p.data "InvId" = .int inv ∧ 0 < inv ∧
  mapIndex p.data "Receipt" = .str receipt ∧ receipt ≠ ""

instance (p : Payment) (a : Float64) (desc : String) (inv : Int) (receipt : String) :
    Decidable (ValidFields p a desc inv receipt) := by
  unfold ValidFields; infer_instance

/-- The outbound signing string as the specification writes it:
`merchantId : amount : invoiceId : receipt : secret`, then one segment `:key=value` for each
of the custom parameters in the order given. -/
def specSigningString (merchantId amount invoiceId receipt secret : String)
    (params : List (String × String)) : String :=
  merchantId ++ ":" ++ amount ++ ":" ++ invoiceId ++ ":" ++ receipt ++ ":" ++ secret
    ++ concatStrings (params.map fun kv => ":" ++ kv.1 ++ "=" ++ kv.2)

/-- A list of pairs is in strictly ascending order of its keys. -/
def AscendingKeys {α : Type} (l : List (String × α)) : Prop :=
  l.Pairwise fun x y => strLt x.1 y.1 = true

instance {α : Type} (l : List (String × α)) : Decidable (AscendingKeys l) := by
  unfold AscendingKeys; infer_instance

/-- A text is a decimal number with exactly two fractional digits: one or more digits, a
point, two digits. -/
def IsTwoDecimalText (s : String) : Prop :=
  ∃ (ds : List Char) (d1 d2 : Char), s.data = ds ++ ['.', d1, d2] ∧ ds ≠ [] ∧
    (∀ c ∈ ds, c.isDigit = true) ∧ d1.isDigit = true ∧ d2.isDigit = true

/-- The inbound signing string as the specification writes it: `amount : invoiceId : secret`,
then one segment `:key=value` for each of the custom fields in the order given. -/
def specInboundString (amount invoiceId secret : String) (params : List (String × String)) : String :=
  amount ++ ":" ++ invoiceId ++ ":" ++ secret
    ++ concatStrings (params.map fun kv => ":" ++ kv.1 ++ "=" ++ kv.2)

/-- The lower-case form of an ASCII letter; every other rune is left as it is. -/
def asciiLower (c : Char) : Char :=
  if 65 ≤ c.toNat ∧ c.toNat ≤ 90 then Char.ofNat (c.toNat + 32) else c

/-- The text `t` is the text `s`, which has no upper-case letter, written in lower case, upper
case or any mix of the two. -/
def IsCaseVariantOf (t s : String) : Prop := t.data.map asciiLower = s.data

instance (t s : String) : Decidable (IsCaseVariantOf t s) := by
  unfold IsCaseVariantOf; infer_instance

/-- No key of the map contains an equals sign and no value contains a colon. -/
def PlainParams (m : List (String × String)) : Prop :=
  ∀ kv ∈ m, '=' ∉ kv.1.data ∧ ':' ∉ kv.2.data

instance (m : List (String × String)) : Decidable (PlainParams m) := by
  unfold PlainParams; infer_instance

/-! ## Example states -/

/-- An inbound field set with the custom fields `shp_a` and `shp_a1`, signed as the
specification describes: over the segments in ascending order of their keys. -/
def keyOrderedFields : List (String × Value) :=
  [("OutSum", .str "10"), ("InvId", .str "1"), ("shp_a", .str "x"), ("shp_a1", .str "y"),
   ("SignatureValue", .str (md5Hex
      (specInboundString "10" "1" "pw" [("shp_a", "x"), ("shp_a1", "y")])))]

/-- An inbound field set without a `SignatureValue` field. -/
def unsignedFields : List (String × Value) :=
  [("OutSum", .str "10"), ("InvId", .str "1")]

/-- An inbound field set whose `SignatureValue` is a number. -/
def numberSignedFields : List (String × Value) :=
  [("OutSum", .str "10"), ("InvId", .str "1"), ("SignatureValue", .int 5)]

/-- An inbound field set signed over `10:1:vpw:shp_a=x`, the signature in mixed case. -/
def mixedCaseFields : List (String × Value) :=
  [("OutSum", .str "10"), ("InvId", .str "1"), ("shp_a", .str "x"),
   ("SignatureValue", .str "3b5dD1C48eCc2cCd589466769a7b3c4b")]

/-- A Payment of one million: the example with the amount 1000000. -/
def millionPayment : Payment :=
  { NewPayment "shop1" "pw" "vpw" false with
    data := [("MerchantLogin", .str "shop1"), ("InvId", .int 7),
      ("OutSum", .float (decimal 1000000 1)), ("Desc", .str "order"),
      ("SignatureValue", .str ""), ("Encoding", .str "utf-8"), ("Culture", .str CultureRu),
      ("IncCurrLabel", .str ""), ("IsTest", .bool false), ("Receipt", .str "r")] }

/-- A notification for the invoice 5, signed with the verification secret `vpw`. -/
def invoiceFiveFields : List (String × Value) :=
  [("OutSum", .str "10"), ("InvId", .int 5), ("SignatureValue", .str (md5Hex "10:5:vpw"))]

/-- The example Payment before its description is set. -/
def undescribedPayment : Payment :=
  { NewPayment "shop1" "pw" "vpw" false with
    data := [("MerchantLogin", .str "shop1"), ("InvId", .int 7),
      ("OutSum", .float (.finite false 100 0)), ("Desc", .str ""),
      ("SignatureValue", .str ""), ("Encoding", .str "utf-8"), ("Culture", .str CultureRu),
      ("IncCurrLabel", .str ""), ("IsTest", .bool false), ("Receipt", .str "r")] }

/-- The example of the specification: shop1, 100.00, 7, r, pw and no custom parameter. -/
def examplePayment : Payment :=
  { NewPayment "shop1" "pw" "vpw" false with
    data := [("MerchantLogin", .str "shop1"), ("InvId", .int 7),
      ("OutSum", .float (.finite false 100 0)), ("Desc", .str "order"),
      ("SignatureValue", .str ""), ("Encoding", .str "utf-8"), ("Culture", .str CultureRu),
      ("IncCurrLabel", .str ""), ("IsTest", .bool false), ("Receipt", .str "r")] }

/-- The example Payment with the one custom parameter `shp_a`, whose value holds a colon. -/
def injectedPayment : Payment :=
  { examplePayment with customParams := [("shp_a", "1:shp_b=2")] }

/-- The example Payment with the two custom parameters `shp_a` and `shp_b`. -/
def twoParamPayment : Payment :=
  { examplePayment with customParams := [("shp_a", "1"), ("shp_b", "2")] }

/-- The example Payment built in test mode, with an e-mail address. -/
def testModePayment : Payment :=
  { NewPayment "shop1" "pw" "vpw" true with
    data := [("MerchantLogin", .str "shop1"), ("InvId", .int 7),
      ("OutSum", .float (.finite false 100 0)), ("Desc", .str "order"),
      ("SignatureValue", .str ""), ("Encoding", .str "utf-8"), ("Culture", .str CultureRu),
      ("IncCurrLabel", .str ""), ("IsTest", .bool true), ("Receipt", .str "r"),
      ("Email", .str "a@b.c")] }

/-- The example Payment with the custom parameter `shp_a=b`, whose key holds an equals sign. -/
def equalsKeyPayment : Payment :=
  { examplePayment with customParams := [("shp_a=b", "c")] }

/-- The example Payment with the custom parameter `shp_a`, whose value holds an equals sign. -/
def equalsValuePayment : Payment :=
  { examplePayment with customParams := [("shp_a", "b=c")] }

/-- The example Payment with the custom parameters `shp_a:b`, whose key holds a colon, and
`shp_b`. -/
def colonKeyPayment : Payment :=
  { examplePayment with customParams := [("shp_a:b", "1"), ("shp_b", "2")] }

/-- The example Payment after `SetSum(100)`. -/
def storedPayment : Payment := (SetSum amd64OutOfRange examplePayment (decimal 100 1)).1

end Robokassa

namespace Robokassa

/-! ## The order on strings and `sort.Strings` -/

theorem charsLt_irrefl (a : List Char) : charsLt a a = false := by
  induction a with
  | nil => rfl
  | cons c cs ih => simp [charsLt, ih]

theorem charsLt_asymm : ∀ a b : List Char, charsLt a b = true → charsLt b a = false
  | [], [] => by simp [charsLt]
  | [], _ :: _ => by simp [charsLt]
  | _ :: _, [] => by simp [charsLt]
  | a :: as, b :: bs => by
    unfold charsLt
    by_cases h1 : a.toNat < b.toNat
    · have h2 : ¬ b.toNat < a.toNat := by omega
      simp [h1, h2]
    · by_cases h2 : b.toNat < a.toNat
      · simp [h1, h2]
      · simp only [h1, h2, if_false]
        exact charsLt_asymm as bs

theorem charsLt_trans : ∀ a b c : List Char,
    charsLt a b = true → charsLt b c = true → charsLt a c = true
  | [], _, [] => by
    intro h1 h2
    cases ‹List Char› <;> simp [charsLt] at h1 h2
  | [], _, _ :: _ => by simp [charsLt]
  | _ :: _, [], _ => by simp [charsLt]
  | _ :: _, _ :: _, [] => by simp [charsLt]
  | a :: as, b :: bs, c :: cs => by
    unfold charsLt
    intro h1 h2
    by_cases ab : a.toNat < b.toNat
    · by_cases bc : b.toNat < c.toNat
      · have : a.toNat < c.toNat := by omega
        simp [this]
      · by_cases cb : c.toNat < b.toNat
        · simp [bc, cb] at h2
        · have : a.toNat < c.toNat := by omega
          simp [this]
    · by_cases ba : b.toNat < a.toNat
      · simp [ab, ba] at h1
      · simp only [ab, ba, if_false] at h1
        by_cases bc : b.toNat < c.toNat
        · have : a.toNat < c.toNat := by omega
          simp [this]
        · by_cases cb : c.toNat < b.toNat
          · simp [bc, cb] at h2
          · simp only [bc, cb, if_false] at h2
            have e1 : ¬ a.toNat < c.toNat := by omega
            have e2 : ¬ c.toNat < a.toNat := by omega
            simp only [e1, e2, if_false]
            exact charsLt_trans as bs cs h1 h2

theorem char_eq_of_toNat_eq {a b : Char} (h : a.toNat = b.toNat) : a = b := by
  apply Char.ext
  apply UInt32.ext
  exact h

theorem charsLt_connex : ∀ a b : List Char,
    charsLt a b = false → charsLt b a = false → a = b
  | [], [] => by simp
  | [], _ :: _ => by simp [charsLt]
  | _ :: _, [] => by simp [charsLt]
  | a :: as, b :: bs => by
    unfold charsLt
    intro h1 h2
    by_cases ab : a.toNat < b.toNat
    · simp [ab] at h1
    · by_cases ba : b.toNat < a.toNat
      · simp [ba] at h2
      · simp only [ab, ba, if_false] at h1 h2
        have : a = b := char_eq_of_toNat_eq (by omega)
        rw [this, charsLt_connex as bs h1 h2]

theorem strLe_total (a b : String) : strLe a b = true ∨ strLe b a = true := by
  unfold strLe strLt
  cases h : charsLt b.data a.data
  · simp
  · simp [charsLt_asymm _ _ h]

theorem strLe_trans (a b c : String) (h1 : strLe a b = true) (h2 : strLe b c = true) :
    strLe a c = true := by
  unfold strLe strLt at *
  simp only [Bool.not_eq_true'] at *
  cases h : charsLt c.data a.data
  · rfl
  · cases hab : charsLt a.data b.data
    · have e : a.data = b.data := charsLt_connex _ _ hab h1
      rw [e] at h
      rw [h] at h2
      exact h2
    · have := charsLt_trans _ _ _ h hab
      rw [this] at h2
      exact h2

theorem strLe_antisymm (a b : String) (h1 : strLe a b = true) (h2 : strLe b a = true) : a = b := by
  unfold strLe strLt at *
  simp only [Bool.not_eq_true'] at *
  have := charsLt_connex _ _ h2 h1
  cases a; cases b; simp_all

theorem strLt_of_strLe_of_ne (a b : String) (h : strLe a b = true) (ne : a ≠ b) :
    strLt a b = true := by
  cases hlt : strLt a b
  · exact absurd (strLe_antisymm a b h (by simp [strLe, hlt])) ne
  · rfl

theorem insertString_eq (x : String) (l : List String) :
    insertString x l = List.orderedInsert (fun a b => strLe a b = true) x l := by
  induction l with
  | nil => rfl
  | cons y ys ih => simp [insertString, List.orderedInsert, ih]

theorem sortStrings_eq (l : List String) :
    sortStrings l = List.insertionSort (fun a b => strLe a b = true) l := by
  induction l with
  | nil => rfl
  | cons x xs ih => simp [sortStrings, List.insertionSort, ih, insertString_eq]

theorem sortStrings_perm (l : List String) : (sortStrings l).Perm l := by
  rw [sortStrings_eq]; exact List.perm_insertionSort _ l

theorem sortStrings_sorted (l : List String) :
    (sortStrings l).Pairwise (fun a b => strLe a b = true) := by
  haveI : IsTotal String (fun a b => strLe a b = true) := ⟨strLe_total⟩
  haveI : IsTrans String (fun a b => strLe a b = true) := ⟨strLe_trans⟩
  rw [sortStrings_eq]
  exact List.sorted_insertionSort _ l

theorem sortStrings_congr {l1 l2 : List String} (h : l1.Perm l2) :
    sortStrings l1 = sortStrings l2 := by
  haveI : IsAntisymm String (fun a b => strLe a b = true) := ⟨strLe_antisymm⟩
  exact List.eq_of_perm_of_sorted
    ((sortStrings_perm l1).trans (h.trans (sortStrings_perm l2).symm))
    (sortStrings_sorted l1) (sortStrings_sorted l2)

theorem sortStrings_strict {l : List String} (nd : l.Nodup) :
    (sortStrings l).Pairwise (fun a b => strLt a b = true) := by
  have hs := sortStrings_sorted l
  have hn : (sortStrings l).Nodup := (sortStrings_perm l).nodup_iff.mpr nd
  have := hs.and hn
  exact this.imp (fun {a b} h => strLt_of_strLe_of_ne a b h.1 h.2)

end Robokassa

namespace Robokassa

/-! ## Maps -/

theorem mapGet_of_mem {α : Type} {m : List (String × α)} (wf : MapWF m) {k : String} {v : α}
    (h : (k, v) ∈ m) : mapGet m k = some v := by
  induction m with
  | nil => cases h
  | cons kv rest ih =>
    obtain ⟨k', v'⟩ := kv
    simp only [MapWF, mapKeys, List.map_cons, List.nodup_cons, List.mem_map, not_exists,
      not_and] at wf
    simp only [mapGet]
    rcases List.mem_cons.mp h with e | e
    · cases e; simp
    · have ne : k' ≠ k := fun e' => wf.1 (k, v) e (by simp [e'])
      simp only [ne, if_false]
      exact ih wf.2 e

theorem mapGet_mapSet_same {α : Type} (m : List (String × α)) (k : String) (v : α) :
    mapGet (mapSet m k v) k = some v := by
  induction m with
  | nil => simp [mapSet, mapGet]
  | cons kv rest ih =>
    obtain ⟨k', v'⟩ := kv
    by_cases e : k' = k
    · simp [mapSet, mapGet, e]
    · simp [mapSet, mapGet, e, ih]

theorem mapGet_mapSet_other {α : Type} (m : List (String × α)) (k k' : String) (v : α)
    (ne : k' ≠ k) : mapGet (mapSet m k v) k' = mapGet m k' := by
  induction m with
  | nil => simp [mapSet, mapGet, Ne.symm ne]
  | cons kv rest ih =>
    obtain ⟨k1, v1⟩ := kv
    by_cases e : k1 = k
    · subst e
      simp [mapSet, mapGet, Ne.symm ne]
    · by_cases e' : k1 = k'
      · subst e'
        simp [mapSet, mapGet, e]
      · simp [mapSet, mapGet, e, e', ih]

theorem mapIndex_mapSet_same (m : List (String × Value)) (k : String) (v : Value) :
    mapIndex (mapSet m k v) k = v := by
  simp [mapIndex, mapGet_mapSet_same]

theorem mapIndex_mapSet_other (m : List (String × Value)) (k k' : String) (v : Value)
    (ne : k' ≠ k) : mapIndex (mapSet m k v) k' = mapIndex m k' := by
  simp [mapIndex, mapGet_mapSet_other m k k' v ne]

/-! ## Formatting -/

theorem digitsRev_lt : ∀ (fuel n : Nat), ∀ d ∈ digitsRev fuel n, d < 10
  | 0, _ => by simp [digitsRev]
  | fuel + 1, n => by
    intro d hd
    unfold digitsRev at hd
    split at hd
    · simp at hd; omega
    · rcases List.mem_cons.mp hd with e | e
      · omega
      · exact digitsRev_lt fuel _ d e

theorem digitsRev_ne_nil (fuel n : Nat) : digitsRev (fuel + 1) n ≠ [] := by
  unfold digitsRev
  split <;> simp

theorem digitChar_isDigit {d : Nat} (h : d < 10) : (digitChar d).isDigit = true := by
  unfold digitChar
  interval_cases d <;> decide

theorem natToString_digits (n : Nat) :
    (natToString n).data ≠ [] ∧ ∀ c ∈ (natToString n).data, c.isDigit = true := by
  constructor
  · simp [natToString, digitsRev_ne_nil]
  · intro c hc
    simp only [natToString, List.mem_map, List.mem_reverse] at hc
    obtain ⟨d, hd, rfl⟩ := hc
    exact digitChar_isDigit (digitsRev_lt _ _ d hd)

theorem fmtFixed2_finite_pos (mant : Nat) (exp : Int) :
    IsTwoDecimalText (fmtFixed2 (.finite false mant exp)) := by
  refine ⟨(natToString (hundredths mant exp / 100)).data,
    digitChar (hundredths mant exp / 10 % 10), digitChar (hundredths mant exp % 10), ?_,
    (natToString_digits _).1, (natToString_digits _).2,
    digitChar_isDigit (Nat.mod_lt _ (by decide)), digitChar_isDigit (Nat.mod_lt _ (by decide))⟩
  simp [fmtFixed2, twoDigits, String.data_append]

theorem leZero_of_gtZero {a : Float64} (h : a.gtZero = true) : a.leZero = false := by
  cases a with
  | finite neg mant exp =>
    simp only [Float64.gtZero, Bool.and_eq_true, Bool.not_eq_true', bne_iff_ne, ne_eq] at h
    simp [Float64.leZero, h.1, h.2]
  | inf neg =>
    simp only [Float64.gtZero, Bool.not_eq_true'] at h
    simp [Float64.leZero, h]
  | nan => simp [Float64.gtZero] at h

/-! ## The outbound signature -/

theorem signatureInput_valid {p : Payment} {a : Float64} {desc : String} {inv : Int}
    {receipt : String} (h : ValidFields p a desc inv receipt) :
    signatureInput p = .ok (p.login ++ ":" ++ fmtFixed2 a ++ ":" ++ intToString inv ++ ":"
      ++ receipt ++ ":" ++ p.paymentPassword ++ concatStrings
        ((sortStrings (mapKeys p.customParams)).map (signSegment p.customParams))) := by
  obtain ⟨h1, h2, h3, h4, h5, h6, h7, h8⟩ := h
  have h6' : ¬ inv ≤ 0 := by omega
  unfold signatureInput
  simp only [h1, h3, h5, h7, asFloat64, asString, asInt, leZero_of_gtZero h2, h4, h6', h8,
    if_false, Bool.false_eq_true]
  cases hc : p.customParams with
  | nil => simp [mapKeys, sortStrings, concatStrings]
  | cons kv rest => simp

end Robokassa

namespace Robokassa

/-- The custom parameters of a well-formed map, listed in ascending order of their keys. -/
theorem sortedParams_spec {cp : List (String × String)} (wf : MapWF cp) :
    ((sortStrings (mapKeys cp)).map fun k => (k, (mapGet cp k).getD "")).Perm cp ∧
    AscendingKeys ((sortStrings (mapKeys cp)).map fun k => (k, (mapGet cp k).getD "")) := by
  constructor
  · have h1 := (sortStrings_perm (mapKeys cp)).map fun k => (k, (mapGet cp k).getD "")
    refine h1.trans ?_
    have h2 : (mapKeys cp).map (fun k => (k, (mapGet cp k).getD "")) = cp := by
      unfold mapKeys
      rw [List.map_map]
      conv_rhs => rw [← List.map_id cp]
      apply List.map_congr_left
      intro kv hkv
      obtain ⟨k, v⟩ := kv
      simp [mapGet_of_mem wf hkv]
    rw [h2]
  · unfold AscendingKeys
    rw [List.pairwise_map]
    exact sortStrings_strict wf

theorem getSignValue_valid {p : Payment} {a : Float64} {desc : String} {inv : Int}
    {receipt : String} (h : ValidFields p a desc inv receipt) :
    getSignValue p = .ok (md5Hex (specSigningString p.login (fmtFixed2 a) (intToString inv)
      receipt p.paymentPassword
      ((sortStrings (mapKeys p.customParams)).map fun k => (k, (mapGet p.customParams k).getD "")))) := by
  unfold getSignValue specSigningString
  rw [signatureInput_valid h, List.map_map]
  rfl

/-- C1: for a Payment with valid standard fields, the signature of `getSignValue`, which
`GetPaymentUrl` and `GetPaymentRecurringParams` store as `SignatureValue`, is the lowercase
hexadecimal MD5 of `login:amount:invoiceId:receipt:paymentPassword` followed by one segment
`:key=value` per custom parameter in ascending order of the prefixed keys (nothing when
there is none); the amount is written with `%0.2f`, which for a finite amount is a decimal
text with exactly two fractional digits. -/
theorem C1_signature_is_md5_of_signing_string (p : Payment) (a : Float64) (desc : String)
    (inv : Int) (receipt : String) (mode : String) (wf : MapWF p.customParams)
    (h : ValidFields p a desc inv receipt) :
    ∃ sorted : List (String × String),
      sorted.Perm p.customParams ∧ AscendingKeys sorted ∧
      (p.customParams = [] → sorted = []) ∧
      getSignValue p = .ok (md5Hex (specSigningString p.login (fmtFixed2 a) (intToString inv)
        receipt p.paymentPassword sorted)) ∧
      mapIndex (GetPaymentUrl p mode).1.data "SignatureValue" =
        .str (md5Hex (specSigningString p.login (fmtFixed2 a) (intToString inv)
          receipt p.paymentPassword sorted)) ∧
      mapIndex (GetPaymentRecurringParams p).1.data "SignatureValue" =
        .str (md5Hex (specSigningString p.login (fmtFixed2 a) (intToString inv)
          receipt p.paymentPassword sorted)) ∧
      (∀ mant exp, a = .finite false mant exp → IsTwoDecimalText (fmtFixed2 a)) := by
  refine ⟨_, (sortedParams_spec wf).1, (sortedParams_spec wf).2, ?_, getSignValue_valid h, ?_, ?_, ?_⟩
  · intro e
    simp [e, mapKeys, sortStrings]
  · unfold GetPaymentUrl
    rw [getSignValue_valid h]
    simp only []
    split_ifs <;> exact mapIndex_mapSet_same _ _ _
  · unfold GetPaymentRecurringParams
    rw [getSignValue_valid h]
    exact mapIndex_mapSet_same _ _ _
  · intro mant exp e
    rw [e]
    exact fmtFixed2_finite_pos mant exp

/-- The example of the specification, as an instance of C1. -/
theorem C1_witness :
    ValidFields examplePayment (.finite false 100 0) "order" 7 "r" ∧
    specSigningString "shop1" (fmtFixed2 (.finite false 100 0)) (intToString 7) "r" "pw" [] =
      "shop1:100.00:7:r:pw" ∧
    ∃ sorted : List (String × String),
      sorted.Perm examplePayment.customParams ∧ AscendingKeys sorted ∧
      (examplePayment.customParams = [] → sorted = []) ∧
      getSignValue examplePayment = .ok (md5Hex (specSigningString examplePayment.login
        (fmtFixed2 (.finite false 100 0)) (intToString 7) "r" examplePayment.paymentPassword sorted)) ∧
      mapIndex (GetPaymentUrl examplePayment "base").1.data "SignatureValue" =
        .str (md5Hex (specSigningString examplePayment.login
          (fmtFixed2 (.finite false 100 0)) (intToString 7) "r" examplePayment.paymentPassword sorted)) ∧
      mapIndex (GetPaymentRecurringParams examplePayment).1.data "SignatureValue" =
        .str (md5Hex (specSigningString examplePayment.login
          (fmtFixed2 (.finite false 100 0)) (intToString 7) "r" examplePayment.paymentPassword sorted)) ∧
      (∀ mant exp, Float64.finite false 100 0 = .finite false mant exp →
        IsTwoDecimalText (fmtFixed2 (.finite false 100 0))) :=
  ⟨by decide, by decide,
    C1_signature_is_md5_of_signing_string examplePayment (.finite false 100 0) "order" 7 "r" "base"
      (by decide) (by decide)⟩

end Robokassa

namespace Robokassa

/-! ## The inbound signature -/

set_option maxRecDepth 100000 in
/-- C2 (fails on the code): with the custom fields `shp_a` and `shp_a1`, `validate` hashes the
segments in the order `shp_a1=y`, `shp_a=x`, the order of the whole `key=value` texts, and
not in ascending order of the keys; a notification signed over the key-ordered string is
rejected. -/
theorem C2_segments_sorted_as_whole_texts :
    AscendingKeys [("shp_a", "x"), ("shp_a1", "y")] ∧
    specInboundString "10" "1" "pw" [("shp_a", "x"), ("shp_a1", "y")] = "10:1:pw:shp_a=x:shp_a1=y" ∧
    validateInput examplePayment keyOrderedFields "payment" = "10:1:pw:shp_a1=y:shp_a=x" ∧
    mapIndex keyOrderedFields "SignatureValue" = .str (md5Hex "10:1:pw:shp_a=x:shp_a1=y") ∧
    (ValidateSuccess asciiOrbit examplePayment keyOrderedFields).2 = .ok false := by
  refine ⟨by decide, by decide, by decide, by decide, by decide⟩

/-- C5 (fails on the code): a field set without `SignatureValue`, or with one that is not a
string, makes `ValidateResult` and `ValidateSuccess` panic on the type assertion instead of
returning false. -/
theorem C5_missing_signature_panics (foldOrbit : Char → Char → Bool) (p : Payment) :
    ValidateResult foldOrbit p unsignedFields = (p, .error .typeAssertion) ∧
    ValidateSuccess foldOrbit p unsignedFields = (p, .error .typeAssertion) ∧
    ValidateResult foldOrbit p [] = (p, .error .typeAssertion) ∧
    ValidateResult foldOrbit p numberSignedFields = (p, .error .typeAssertion) ∧
    ValidateSuccess foldOrbit p numberSignedFields = (p, .error .typeAssertion) := by
  refine ⟨rfl, rfl, rfl, rfl, rfl⟩

end Robokassa

namespace Robokassa

theorem signatureInput_amount {p : Payment}
    (h : ¬ ∃ a, mapIndex p.data "OutSum" = .float a ∧ a.gtZero = true)
    (hnan : mapIndex p.data "OutSum" ≠ .float .nan) :
    signatureInput p = .error (.err .InvalidSum) := by
  unfold signatureInput
  cases h1 : mapIndex p.data "OutSum" with
  | float a =>
    have hz : a.leZero = true := by
      cases a with
      | finite neg mant exp =>
        cases neg
        · by_cases hm : mant = 0
          · simp [Float64.leZero, hm]
          · exact absurd ⟨_, h1, by simp [Float64.gtZero, hm]⟩ h
        · simp [Float64.leZero]
      | inf neg =>
        have := fun hh => h ⟨_, h1, hh⟩
        cases neg
        · simp [Float64.gtZero] at this
        · simp [Float64.leZero]
      | nan => exact absurd h1 hnan
    simp [asFloat64, hz]
  | nil => simp [asFloat64]
  | str s => simp [asFloat64]
  | int n => simp [asFloat64]
  | bool b => simp [asFloat64]

theorem signatureInput_desc {p : Payment} {a : Float64}
    (h1 : mapIndex p.data "OutSum" = .float a) (h2 : a.gtZero = true)
    (h : ¬ ∃ d, mapIndex p.data "Desc" = .str d ∧ d ≠ "") :
    signatureInput p = .error (.err .EmptyDescription) := by
  unfold signatureInput
  simp only [h1, asFloat64, leZero_of_gtZero h2, Bool.false_eq_true, if_false]
  cases h3 : mapIndex p.data "Desc" with
  | str d =>
    have : d = "" := by
      by_contra hd
      exact h ⟨d, h3, hd⟩
    simp [asString, this]
  | nil => simp [asString]
  | float f => simp [asString]
  | int n => simp [asString]
  | bool b => simp [asString]

theorem signatureInput_inv {p : Payment} {a : Float64} {d : String}
    (h1 : mapIndex p.data "OutSum" = .float a) (h2 : a.gtZero = true)
    (h3 : mapIndex p.data "Desc" = .str d) (h4 : d ≠ "")
    (h : ¬ ∃ n : Int, mapIndex p.data "InvId" = .int n ∧ 0 < n) :
    signatureInput p = .error (.err .InvalidInvoiceId) := by
  unfold signatureInput
  simp only [h1, h3, asFloat64, asString, leZero_of_gtZero h2, Bool.false_eq_true, if_false, h4]
  cases h5 : mapIndex p.data "InvId" with
  | int n =>
    have : n ≤ 0 := by
      by_contra hn
      exact h ⟨n, h5, by omega⟩
    simp [asInt, this]
  | nil => simp [asInt]
  | float f => simp [asInt]
  | str s => simp [asInt]
  | bool b => simp [asInt]

theorem signatureInput_receipt {p : Payment} {a : Float64} {d : String} {n : Int}
    (h1 : mapIndex p.data "OutSum" = .float a) (h2 : a.gtZero = true)
    (h3 : mapIndex p.data "Desc" = .str d) (h4 : d ≠ "")
    (h5 : mapIndex p.data "InvId" = .int n) (h6 : 0 < n)
    (h : ¬ ∃ r, mapIndex p.data "Receipt" = .str r ∧ r ≠ "") :
    signatureInput p = .error (.err .EmptyReceipt) := by
  have h6' : ¬ n ≤ 0 := by omega
  unfold signatureInput
  simp only [h1, h3, h5, asFloat64, asString, asInt, leZero_of_gtZero h2, Bool.false_eq_true,
    if_false, h4, h6']
  cases h7 : mapIndex p.data "Receipt" with
  | str r =>
    have : r = "" := by
      by_contra hr
      exact h ⟨r, h7, hr⟩
    simp [this]
  | nil => simp
  | float f => simp
  | int n => simp
  | bool b => simp

theorem getSignValue_of_input {p : Payment} {e : Panic} (h : signatureInput p = .error e) :
    getSignValue p = .error e := by
  simp [getSignValue, h]

theorem GetPaymentUrl_of_panic {p : Payment} {e : Panic} (h : getSignValue p = .error e)
    (mode : String) : GetPaymentUrl p mode = (p, .error e) := by
  simp [GetPaymentUrl, h]

theorem GetPaymentRecurringParams_of_panic {p : Payment} {e : Panic}
    (h : getSignValue p = .error e) : GetPaymentRecurringParams p = (p, .error e) := by
  simp [GetPaymentRecurringParams, h]

/-- C3: on a Payment whose stored amount is not NaN, signing succeeds exactly when the
amount is a float64 > 0, the description a non-empty string, the invoice id an int > 0 and
the receipt a non-empty string.  Otherwise `getSignValue` stops with `ErrInvalidSum` when the
amount is not > 0, else `ErrEmptyDescription`, else `ErrInvalidInvoiceId`, else
`ErrEmptyReceipt`; `GetPaymentUrl` and `GetPaymentRecurringParams` stop the same way and
leave the Payment, its stored signature included, as it was.  A fresh Payment fails with
`ErrInvalidSum`. -/
theorem C3_signing_preconditions (p : Payment) (mode : String)
    (hnan : mapIndex p.data "OutSum" ≠ .float .nan) :
    ((∃ sig, getSignValue p = .ok sig) ↔
      ((∃ a, mapIndex p.data "OutSum" = .float a ∧ a.gtZero = true) ∧
       (∃ d, mapIndex p.data "Desc" = .str d ∧ d ≠ "") ∧
       (∃ n : Int, mapIndex p.data "InvId" = .int n ∧ 0 < n) ∧
       (∃ r, mapIndex p.data "Receipt" = .str r ∧ r ≠ ""))) ∧
    ((¬ ∃ a, mapIndex p.data "OutSum" = .float a ∧ a.gtZero = true) →
      getSignValue p = .error (.err .InvalidSum)) ∧
    ((∃ a, mapIndex p.data "OutSum" = .float a ∧ a.gtZero = true) →
      (¬ ∃ d, mapIndex p.data "Desc" = .str d ∧ d ≠ "") →
      getSignValue p = .error (.err .EmptyDescription)) ∧
    ((∃ a, mapIndex p.data "OutSum" = .float a ∧ a.gtZero = true) →
      (∃ d, mapIndex p.data "Desc" = .str d ∧ d ≠ "") →
      (¬ ∃ n : Int, mapIndex p.data "InvId" = .int n ∧ 0 < n) →
      getSignValue p = .error (.err .InvalidInvoiceId)) ∧
    ((∃ a, mapIndex p.data "OutSum" = .float a ∧ a.gtZero = true) →
      (∃ d, mapIndex p.data "Desc" = .str d ∧ d ≠ "") →
      (∃ n : Int, mapIndex p.data "InvId" = .int n ∧ 0 < n) →
      (¬ ∃ r, mapIndex p.data "Receipt" = .str r ∧ r ≠ "") →
      getSignValue p = .error (.err .EmptyReceipt)) ∧
    (∀ e, getSignValue p = .error e →
      GetPaymentUrl p mode = (p, .error e) ∧ GetPaymentRecurringParams p = (p, .error e)) ∧
    (∀ sig, getSignValue p = .ok sig →
      (∃ r, (GetPaymentUrl p mode).2 = .ok r) ∧ (∃ r, (GetPaymentRecurringParams p).2 = .ok r)) ∧
    (∀ login pw vpw test, getSignValue (NewPayment login pw vpw test) = .error (.err .InvalidSum)) := by
  have hsum := fun h => getSignValue_of_input (signatureInput_amount (p := p) h hnan)
  have hdesc : (∃ a, mapIndex p.data "OutSum" = .float a ∧ a.gtZero = true) →
      (¬ ∃ d, mapIndex p.data "Desc" = .str d ∧ d ≠ "") →
      getSignValue p = .error (.err .EmptyDescription) :=
    fun ⟨_, h1, h2⟩ h => getSignValue_of_input (signatureInput_desc h1 h2 h)
  have hinv : (∃ a, mapIndex p.data "OutSum" = .float a ∧ a.gtZero = true) →
      (∃ d, mapIndex p.data "Desc" = .str d ∧ d ≠ "") →
      (¬ ∃ n : Int, mapIndex p.data "InvId" = .int n ∧ 0 < n) →
      getSignValue p = .error (.err .InvalidInvoiceId) :=
    fun ⟨_, h1, h2⟩ ⟨_, h3, h4⟩ h => getSignValue_of_input (signatureInput_inv h1 h2 h3 h4 h)
  have hrec : (∃ a, mapIndex p.data "OutSum" = .float a ∧ a.gtZero = true) →
      (∃ d, mapIndex p.data "Desc" = .str d ∧ d ≠ "") →
      (∃ n : Int, mapIndex p.data "InvId" = .int n ∧ 0 < n) →
      (¬ ∃ r, mapIndex p.data "Receipt" = .str r ∧ r ≠ "") →
      getSignValue p = .error (.err .EmptyReceipt) :=
    fun ⟨_, h1, h2⟩ ⟨_, h3, h4⟩ ⟨_, h5, h6⟩ h =>
      getSignValue_of_input (signatureInput_receipt h1 h2 h3 h4 h5 h6 h)
  refine ⟨⟨?_, ?_⟩, hsum, hdesc, hinv, hrec, ?_, ?_, ?_⟩
  · rintro ⟨sig, hs⟩
    by_cases c1 : ∃ a, mapIndex p.data "OutSum" = .float a ∧ a.gtZero = true
    · by_cases c2 : ∃ d, mapIndex p.data "Desc" = .str d ∧ d ≠ ""
      · by_cases c3 : ∃ n : Int, mapIndex p.data "InvId" = .int n ∧ 0 < n
        · by_cases c4 : ∃ r, mapIndex p.data "Receipt" = .str r ∧ r ≠ ""
          · exact ⟨c1, c2, c3, c4⟩
          · rw [hrec c1 c2 c3 c4] at hs; cases hs
        · rw [hinv c1 c2 c3] at hs; cases hs
      · rw [hdesc c1 c2] at hs; cases hs
    · rw [hsum c1] at hs; cases hs
  · rintro ⟨⟨a, h1, h2⟩, ⟨d, h3, h4⟩, ⟨n, h5, h6⟩, ⟨r, h7, h8⟩⟩
    exact ⟨_, getSignValue_valid ⟨h1, h2, h3, h4, h5, h6, h7, h8⟩⟩
  · intro e he
    exact ⟨GetPaymentUrl_of_panic he mode, GetPaymentRecurringParams_of_panic he⟩
  · intro sig hs
    constructor
    · unfold GetPaymentUrl
      rw [hs]
      simp only []
      split_ifs <;> exact ⟨_, rfl⟩
    · unfold GetPaymentRecurringParams
      rw [hs]
      exact ⟨_, rfl⟩
  · intro login pw vpw test
    rfl

/-- A fresh Payment, as an instance of C3: `GetPaymentUrl` stops with `ErrInvalidSum`. -/
theorem C3_witness :
    mapIndex (NewPayment "shop1" "pw" "vpw" false).data "OutSum" ≠ .float .nan ∧
    GetPaymentUrl (NewPayment "shop1" "pw" "vpw" false) "base" =
      (NewPayment "shop1" "pw" "vpw" false, .error (.err .InvalidSum)) :=
  ⟨by decide,
    ((C3_signing_preconditions (NewPayment "shop1" "pw" "vpw" false) "base" (by decide)).2.2.2.2.2.1
      _ (by decide)).1⟩

end Robokassa

namespace Robokassa

theorem toNat_ofNat {n : Nat} (hv : n < 0xd800) : (Char.ofNat n).toNat = n := by
  unfold Char.ofNat
  have hvalid : n.isValidChar := Or.inl hv
  simp only [hvalid, dite_true]
  rfl

theorem foldEqRune_upper (foldOrbit : Char → Char → Bool) {sr tr : Char}
    (h1 : 65 ≤ tr.toNat) (h2 : tr.toNat ≤ 90) (h3 : sr.toNat = tr.toNat + 32) :
    foldEqRune foldOrbit sr tr = true := by
  have ne : tr ≠ sr := by
    intro e
    rw [e] at h3
    omega
  have lt : tr.toNat < sr.toNat := by omega
  have small : sr.toNat < 128 := by omega
  unfold foldEqRune
  simp only [ne, if_false, lt, if_true, small, h1, h2, decide_True, Bool.and_self,
    Bool.true_and, decide_eq_true_eq]
  exact h3

theorem foldEqRune_asciiLower (foldOrbit : Char → Char → Bool) (c : Char) :
    foldEqRune foldOrbit (asciiLower c) c = true := by
  unfold asciiLower
  by_cases h : 65 ≤ c.toNat ∧ c.toNat ≤ 90
  · simp only [h, and_self, if_true]
    exact foldEqRune_upper foldOrbit h.1 h.2 (toNat_ofNat (by omega))
  · simp [h, foldEqRune]

theorem equalFoldChars_of_lower (foldOrbit : Char → Char → Bool) :
    ∀ t : List Char, equalFoldChars foldOrbit (t.map asciiLower) t = true
  | [] => rfl
  | c :: cs => by
    simp [equalFoldChars, foldEqRune_asciiLower, equalFoldChars_of_lower foldOrbit cs]

theorem equalFold_of_caseVariant (foldOrbit : Char → Char → Bool) {s t : String}
    (h : IsCaseVariantOf t s) : equalFold foldOrbit s t = true := by
  unfold equalFold
  rw [← h]
  exact equalFoldChars_of_lower foldOrbit t.data

theorem validate_accepts (foldOrbit : Char → Char → Bool) (p : Payment)
    (data : List (String × Value)) (passwordType supplied : String)
    (hs : mapIndex data "SignatureValue" = .str supplied)
    (hv : IsCaseVariantOf supplied (md5Hex (validateInput p data passwordType))) :
    validate foldOrbit p data passwordType = ({ p with valid := true }, .ok true) := by
  unfold validate
  simp only [hs, equalFold_of_caseVariant foldOrbit hv]

/-- C4: when the `SignatureValue` of an inbound field set is the hexadecimal MD5 that the
verifier computes over that field set with the secret of the tier, written in lower case,
upper case or any mix, `ValidateResult` (verification secret) and `ValidateSuccess` (signing
secret) return true. -/
theorem C4_verifier_accepts_own_signature (foldOrbit : Char → Char → Bool) (p : Payment)
    (data : List (String × Value)) (supplied : String)
    (hs : mapIndex data "SignatureValue" = .str supplied) :
    (IsCaseVariantOf supplied (md5Hex (validateInput p data "validation")) →
      (ValidateResult foldOrbit p data).2 = .ok true) ∧
    (IsCaseVariantOf supplied (md5Hex (validateInput p data "payment")) →
      (ValidateSuccess foldOrbit p data).2 = .ok true) ∧
    (validateInput p data "validation" =
      fmtV (mapIndex data "OutSum") ++ ":" ++ fmtV (mapIndex data "InvId") ++ ":" ++
        p.validationPassword ++ getCustomParamsString data) ∧
    (validateInput p data "payment" =
      fmtV (mapIndex data "OutSum") ++ ":" ++ fmtV (mapIndex data "InvId") ++ ":" ++
        p.paymentPassword ++ getCustomParamsString data) := by
  refine ⟨fun hv => ?_, fun hv => ?_, rfl, rfl⟩
  · unfold ValidateResult
    rw [validate_accepts foldOrbit p data "validation" supplied hs hv]
  · unfold ValidateSuccess
    rw [validate_accepts foldOrbit p data "payment" supplied hs hv]

set_option maxRecDepth 100000 in
/-- A notification signed in mixed case, as an instance of C4. -/
theorem C4_witness :
    mapIndex mixedCaseFields "SignatureValue" = .str "3b5dD1C48eCc2cCd589466769a7b3c4b" ∧
    IsCaseVariantOf "3b5dD1C48eCc2cCd589466769a7b3c4b"
      (md5Hex (validateInput examplePayment mixedCaseFields "validation")) ∧
    (ValidateResult asciiOrbit examplePayment mixedCaseFields).2 = .ok true :=
  ⟨by decide, by decide,
    (C4_verifier_accepts_own_signature asciiOrbit examplePayment mixedCaseFields
      "3b5dD1C48eCc2cCd589466769a7b3c4b" (by decide)).1 (by decide)⟩

end Robokassa

namespace Robokassa

/-- C6: `ValidateResult` and `ValidateSuccess` are the same comparison with a different
secret.  `ValidateResult` does not read the signing secret and `ValidateSuccess` does not
read the verification secret; `ValidateSuccess` returns what `ValidateResult` returns once
the verification secret is replaced by the signing secret; with both secrets equal the two
calls return the same result. -/
theorem C6_tiers_differ_only_in_secret (foldOrbit : Char → Char → Bool) (p : Payment)
    (data : List (String × Value)) (s : String) :
    (ValidateResult foldOrbit { p with paymentPassword := s } data).2 =
      (ValidateResult foldOrbit p data).2 ∧
    (ValidateSuccess foldOrbit { p with validationPassword := s } data).2 =
      (ValidateSuccess foldOrbit p data).2 ∧
    (ValidateSuccess foldOrbit p data).2 =
      (ValidateResult foldOrbit { p with validationPassword := p.paymentPassword } data).2 ∧
    (ValidateResult foldOrbit { p with paymentPassword := s, validationPassword := s } data).2 =
      (ValidateSuccess foldOrbit { p with paymentPassword := s, validationPassword := s } data).2 ∧
    (ValidateResult foldOrbit p data).2 =
      (match mapIndex data "SignatureValue" with
       | .str supplied => .ok (equalFold foldOrbit (md5Hex (fmtV (mapIndex data "OutSum") ++ ":" ++
           fmtV (mapIndex data "InvId") ++ ":" ++ p.validationPassword ++
           getCustomParamsString data)) supplied)
       | _ => .error .typeAssertion) ∧
    (ValidateSuccess foldOrbit p data).2 =
      (match mapIndex data "SignatureValue" with
       | .str supplied => .ok (equalFold foldOrbit (md5Hex (fmtV (mapIndex data "OutSum") ++ ":" ++
           fmtV (mapIndex data "InvId") ++ ":" ++ p.paymentPassword ++
           getCustomParamsString data)) supplied)
       | _ => .error .typeAssertion) := by
  unfold ValidateResult ValidateSuccess validate validateInput
  refine ⟨?_, ?_, ?_, ?_, ?_, ?_⟩ <;> cases mapIndex data "SignatureValue" <;> simp

end Robokassa

namespace Robokassa

/-! ## Custom parameters -/

theorem shp_injective {a b : String} (h : "shp_" ++ a = "shp_" ++ b) : a = b := by
  have := congrArg String.data h
  simp only [String.data_append, List.append_cancel_left_eq] at this
  exact String.ext this

theorem mem_mapKeys_iff {α : Type} (m : List (String × α)) (k : String) :
    k ∈ mapKeys m ↔ ∃ v, mapGet m k = some v := by
  induction m with
  | nil => simp [mapKeys, mapGet]
  | cons kv rest ih =>
    obtain ⟨k', v'⟩ := kv
    by_cases e : k' = k
    · simp [mapKeys, mapGet, e]
    · have ih' : k ∈ List.map Prod.fst rest ↔ ∃ v, mapGet rest k = some v := ih
      simp only [mapKeys, List.map_cons, List.mem_cons, mapGet, e, if_false]
      rw [ih']
      constructor
      · rintro (h | h)
        · exact absurd h.symm e
        · exact h
      · exact Or.inr

theorem mapWF_mapSet {α : Type} {m : List (String × α)} (wf : MapWF m) (k : String) (v : α) :
    MapWF (mapSet m k v) := by
  induction m with
  | nil => simp [MapWF, mapKeys, mapSet]
  | cons kv rest ih =>
    obtain ⟨k', v'⟩ := kv
    have wf' : k' ∉ mapKeys rest ∧ MapWF rest := by
      simpa [MapWF, mapKeys] using wf
    by_cases e : k' = k
    · subst e
      simpa [mapSet, MapWF, mapKeys] using wf
    · have hk : k' ∉ mapKeys (mapSet rest k v) := by
        rw [mem_mapKeys_iff]
        rintro ⟨w, hw⟩
        rw [mapGet_mapSet_other rest k k' v e] at hw
        exact wf'.1 ((mem_mapKeys_iff rest k').mpr ⟨w, hw⟩)
      have := ih wf'.2
      simp only [mapSet, e, if_false, MapWF, mapKeys, List.map_cons, List.nodup_cons]
      exact ⟨hk, this⟩

theorem mapWF_addPrefixed {cp : List (String × String)} (wf : MapWF cp)
    (ps : List (String × String)) : MapWF (addPrefixed cp ps) := by
  induction ps generalizing cp with
  | nil => exact wf
  | cons kv rest ih => exact ih (mapWF_mapSet wf _ _)

theorem mapGet_addPrefixed_other (cp ps : List (String × String)) (key : String)
    (h : ∀ kv ∈ ps, "shp_" ++ kv.1 ≠ key) : mapGet (addPrefixed cp ps) key = mapGet cp key := by
  induction ps generalizing cp with
  | nil => rfl
  | cons kv rest ih =>
    have h1 := ih (mapSet cp ("shp_" ++ kv.1) kv.2) (fun x hx => h x (List.mem_cons_of_mem _ hx))
    have h2 := mapGet_mapSet_other cp ("shp_" ++ kv.1) key kv.2
      (Ne.symm (h kv (List.mem_cons_self _ _)))
    exact h1.trans h2

theorem mapGet_addPrefixed_mem (cp : List (String × String)) {ps : List (String × String)}
    (wf : MapWF ps) {k v : String} (h : (k, v) ∈ ps) :
    mapGet (addPrefixed cp ps) ("shp_" ++ k) = some v := by
  induction ps generalizing cp with
  | nil => cases h
  | cons kv rest ih =>
    have wf' : kv.1 ∉ mapKeys rest ∧ MapWF rest := by
      simpa [MapWF, mapKeys] using wf
    rcases List.mem_cons.mp h with e | e
    · subst e
      have hother : ∀ x ∈ rest, "shp_" ++ x.1 ≠ "shp_" ++ k := by
        intro x hx hx'
        apply wf'.1
        have : x.1 = k := shp_injective hx'
        simpa [mapKeys] using ⟨x.2, by rw [← this]; exact hx⟩
      show mapGet (addPrefixed (mapSet cp ("shp_" ++ k) v) rest) ("shp_" ++ k) = some v
      rw [mapGet_addPrefixed_other _ _ _ hother, mapGet_mapSet_same]
    · exact ih (mapSet cp ("shp_" ++ kv.1) kv.2) wf'.2 e

theorem keys_perm_of_lookup {cp1 cp2 : List (String × String)} (wf1 : MapWF cp1)
    (wf2 : MapWF cp2) (h : ∀ k, mapGet cp1 k = mapGet cp2 k) :
    (mapKeys cp1).Perm (mapKeys cp2) := by
  rw [List.perm_ext_iff_of_nodup wf1 wf2]
  intro k
  rw [mem_mapKeys_iff, mem_mapKeys_iff, h k]

theorem signTail_eq (cp : List (String × String)) (sig : String) :
    (if cp.length > 0 then
        (Except.ok (sig ++ concatStrings ((sortStrings (mapKeys cp)).map (signSegment cp))) :
          Except Panic String)
      else .ok sig) =
    .ok (sig ++ concatStrings ((sortStrings (mapKeys cp)).map (signSegment cp))) := by
  cases cp with
  | nil => simp [mapKeys, sortStrings, concatStrings]
  | cons kv rest => simp

theorem signatureInput_congr (p : Payment) {cp1 cp2 : List (String × String)}
    (wf1 : MapWF cp1) (wf2 : MapWF cp2) (h : ∀ k, mapGet cp1 k = mapGet cp2 k) :
    signatureInput { p with customParams := cp1 } = signatureInput { p with customParams := cp2 } := by
  have hk : sortStrings (mapKeys cp1) = sortStrings (mapKeys cp2) :=
    sortStrings_congr (keys_perm_of_lookup wf1 wf2 h)
  have hs : signSegment cp1 = signSegment cp2 := by
    funext k
    simp [signSegment, h k]
  simp only [signatureInput, signTail_eq]
  rw [hk, hs]

theorem getSignValue_congr (p : Payment) {cp1 cp2 : List (String × String)}
    (wf1 : MapWF cp1) (wf2 : MapWF cp2) (h : ∀ k, mapGet cp1 k = mapGet cp2 k) :
    getSignValue { p with customParams := cp1 } = getSignValue { p with customParams := cp2 } := by
  simp only [getSignValue, signatureInput_congr p wf1 wf2 h]

theorem lookup_add_add_comm (cp : List (String × String)) {A B : List (String × String)}
    (wfA : MapWF A) (wfB : MapWF B) (disj : ∀ k, k ∈ mapKeys A → k ∉ mapKeys B) (key : String) :
    mapGet (addPrefixed (addPrefixed cp A) B) key = mapGet (addPrefixed (addPrefixed cp B) A) key := by
  by_cases hB : ∃ kv ∈ B, "shp_" ++ kv.1 = key
  · obtain ⟨⟨k, v⟩, hmem, rfl⟩ := hB
    have hA : ∀ x ∈ A, "shp_" ++ x.1 ≠ "shp_" ++ k := by
      intro x hx hx'
      have e : x.1 = k := shp_injective hx'
      exact disj x.1 (List.mem_map_of_mem Prod.fst hx) (e ▸ List.mem_map_of_mem Prod.fst hmem)
    rw [mapGet_addPrefixed_mem _ wfB hmem, mapGet_addPrefixed_other _ A _ hA,
      mapGet_addPrefixed_mem _ wfB hmem]
  · have hB' : ∀ x ∈ B, "shp_" ++ x.1 ≠ key := fun x hx hx' => hB ⟨x, hx, hx'⟩
    rw [mapGet_addPrefixed_other _ B _ hB']
    by_cases hA : ∃ kv ∈ A, "shp_" ++ kv.1 = key
    · obtain ⟨⟨k, v⟩, hmem, rfl⟩ := hA
      rw [mapGet_addPrefixed_mem _ wfA hmem, mapGet_addPrefixed_mem _ wfA hmem]
    · have hA' : ∀ x ∈ A, "shp_" ++ x.1 ≠ key := fun x hx hx' => hA ⟨x, hx, hx'⟩
      rw [mapGet_addPrefixed_other _ A _ hA', mapGet_addPrefixed_other _ A _ hA',
        mapGet_addPrefixed_other _ B _ hB']

theorem lookup_add_union (cp : List (String × String)) {A B U : List (String × String)}
    (wfA : MapWF A) (wfB : MapWF B) (disj : ∀ k, k ∈ mapKeys A → k ∉ mapKeys B)
    (hU : U.Perm (A ++ B)) (key : String) :
    mapGet (addPrefixed (addPrefixed cp A) B) key = mapGet (addPrefixed cp U) key := by
  have wfU : MapWF U := by
    have hk : (mapKeys U).Perm (mapKeys A ++ mapKeys B) := by
      have := hU.map Prod.fst
      simpa [mapKeys] using this
    exact hk.nodup_iff.mpr (List.Nodup.append wfA wfB (fun k ha hb => disj k ha hb))
  by_cases hB : ∃ kv ∈ B, "shp_" ++ kv.1 = key
  · obtain ⟨⟨k, v⟩, hmem, rfl⟩ := hB
    have hmemU : (k, v) ∈ U := hU.mem_iff.mpr (List.mem_append_right _ hmem)
    rw [mapGet_addPrefixed_mem _ wfB hmem, mapGet_addPrefixed_mem _ wfU hmemU]
  · have hB' : ∀ x ∈ B, "shp_" ++ x.1 ≠ key := fun x hx hx' => hB ⟨x, hx, hx'⟩
    rw [mapGet_addPrefixed_other _ B _ hB']
    by_cases hA : ∃ kv ∈ A, "shp_" ++ kv.1 = key
    · obtain ⟨⟨k, v⟩, hmem, rfl⟩ := hA
      have hmemU : (k, v) ∈ U := hU.mem_iff.mpr (List.mem_append_left _ hmem)
      rw [mapGet_addPrefixed_mem _ wfA hmem, mapGet_addPrefixed_mem _ wfU hmemU]
    · have hA' : ∀ x ∈ A, "shp_" ++ x.1 ≠ key := fun x hx hx' => hA ⟨x, hx, hx'⟩
      have hU' : ∀ x ∈ U, "shp_" ++ x.1 ≠ key := by
        intro x hx
        rcases List.mem_append.mp (hU.mem_iff.mp hx) with h | h
        · exact hA' x h
        · exact hB' x h
      rw [mapGet_addPrefixed_other _ A _ hA', mapGet_addPrefixed_other _ U _ hU']

/-- C7: the signature does not depend on the order in which custom parameters were added.
For mappings `A` and `B` with no key in common, adding `A` then `B`, adding `B` then `A`, and
adding their union `U` in one call (in any iteration order) give the same result of
`getSignValue`, and the stored parameters are the same map. -/
theorem C7_signature_independent_of_insertion_order (p : Payment)
    (A B U : List (String × String)) (wfp : MapWF p.customParams) (wfA : MapWF A)
    (wfB : MapWF B) (disj : ∀ k, k ∈ mapKeys A → k ∉ mapKeys B) (hU : U.Perm (A ++ B)) :
    getSignValue (AddCustomParameters (AddCustomParameters p (some A)).1 (some B)).1 =
      getSignValue (AddCustomParameters (AddCustomParameters p (some B)).1 (some A)).1 ∧
    getSignValue (AddCustomParameters (AddCustomParameters p (some A)).1 (some B)).1 =
      getSignValue (AddCustomParameters p (some U)).1 ∧
    (∀ key, mapGet (AddCustomParameters (AddCustomParameters p (some A)).1 (some B)).1.customParams key =
      mapGet (AddCustomParameters (AddCustomParameters p (some B)).1 (some A)).1.customParams key) ∧
    (∀ key, mapGet (AddCustomParameters (AddCustomParameters p (some A)).1 (some B)).1.customParams key =
      mapGet (AddCustomParameters p (some U)).1.customParams key) := by
  have wfAB := mapWF_addPrefixed (mapWF_addPrefixed wfp A) B
  have wfBA := mapWF_addPrefixed (mapWF_addPrefixed wfp B) A
  have wfU := mapWF_addPrefixed wfp U
  refine ⟨?_, ?_, ?_, ?_⟩
  · exact getSignValue_congr p wfAB wfBA (lookup_add_add_comm _ wfA wfB disj)
  · exact getSignValue_congr p wfAB wfU (lookup_add_union _ wfA wfB disj hU)
  · exact lookup_add_add_comm _ wfA wfB disj
  · exact lookup_add_union _ wfA wfB disj hU

/-- Three parameters added in two orders, as an instance of C7: the stores differ as lists and the signatures agree. -/
theorem C7_witness :
    MapWF examplePayment.customParams ∧ MapWF [("b", "2"), ("a", "1")] ∧ MapWF [("c", "3")] ∧
    (∀ k, k ∈ mapKeys [("b", "2"), ("a", "1")] → k ∉ mapKeys [("c", "3")]) ∧
    getSignValue (AddCustomParameters
        (AddCustomParameters examplePayment (some [("b", "2"), ("a", "1")])).1 (some [("c", "3")])).1 =
      getSignValue (AddCustomParameters
        (AddCustomParameters examplePayment (some [("c", "3")])).1 (some [("b", "2"), ("a", "1")])).1 ∧
    (AddCustomParameters
        (AddCustomParameters examplePayment (some [("b", "2"), ("a", "1")])).1
          (some [("c", "3")])).1.customParams ≠
      (AddCustomParameters
        (AddCustomParameters examplePayment (some [("c", "3")])).1
          (some [("b", "2"), ("a", "1")])).1.customParams ∧
    signatureInput (AddCustomParameters
        (AddCustomParameters examplePayment (some [("b", "2"), ("a", "1")])).1 (some [("c", "3")])).1 =
      .ok "shop1:100.00:7:r:pw:shp_a=1:shp_b=2:shp_c=3" :=
  ⟨by decide, by decide, by decide, by decide,
    (C7_signature_independent_of_insertion_order examplePayment [("b", "2"), ("a", "1")]
      [("c", "3")] [("a", "1"), ("c", "3"), ("b", "2")] (by decide) (by decide) (by decide)
      (by decide) (by decide)).1,
    by decide, by decide⟩

end Robokassa

namespace Robokassa

/-- C8 (fails on the code): `GetCustomParam` looks the prefixed name up in `data`, while
`AddCustomParameters` stores in `customParams`; adding parameters never changes what
`GetCustomParam` returns, and after `AddCustomParameters({"a": "1"})` on a fresh Payment
`GetCustomParam("a")` is nil although the store holds `shp_a = 1`. -/
theorem C8_GetCustomParam_reads_data (p : Payment) (params : Option (List (String × String)))
    (name : String) :
    GetCustomParam (AddCustomParameters p params).1 name = GetCustomParam p name ∧
    (AddCustomParameters (NewPayment "shop1" "pw" "vpw" false) (some [("a", "1")])).2 = none ∧
    mapGet (AddCustomParameters (NewPayment "shop1" "pw" "vpw" false)
      (some [("a", "1")])).1.customParams "shp_a" = some "1" ∧
    GetCustomParam (AddCustomParameters (NewPayment "shop1" "pw" "vpw" false)
      (some [("a", "1")])).1 "a" = .nil := by
  refine ⟨?_, by decide, by decide, by decide⟩
  cases params <;> rfl

/-- C9: `AddCustomParameters` on the nil map returns `ErrInvalidParam` and leaves the Payment
as it was.  On a map it returns no error, changes nothing but the stored custom parameters,
stores `v` under `"shp_" + k` for every pair `(k, v)` of the map, whatever was stored there
before, and keeps the value of every other key; on the empty map the Payment is unchanged. -/
theorem C9_AddCustomParameters_merges (p : Payment) (params : List (String × String))
    (wf : MapWF params) :
    AddCustomParameters p none = (p, some .InvalidParam) ∧
    (AddCustomParameters p (some params)).2 = none ∧
    (AddCustomParameters p (some params)).1 =
      { p with customParams := (AddCustomParameters p (some params)).1.customParams } ∧
    (∀ k v, (k, v) ∈ params →
      mapGet (AddCustomParameters p (some params)).1.customParams ("shp_" ++ k) = some v) ∧
    (∀ key, (∀ k ∈ mapKeys params, key ≠ "shp_" ++ k) →
      mapGet (AddCustomParameters p (some params)).1.customParams key =
        mapGet p.customParams key) ∧
    AddCustomParameters p (some []) = (p, none) := by
  refine ⟨rfl, rfl, rfl, ?_, ?_, rfl⟩
  · intro k v h
    exact mapGet_addPrefixed_mem p.customParams wf h
  · intro key h
    apply mapGet_addPrefixed_other
    intro kv hkv e
    exact h kv.1 (List.mem_map_of_mem Prod.fst hkv) e.symm

/-- An overwritten and a kept key, as an instance of C9. -/
theorem C9_witness :
    MapWF [("a", "new"), ("b", "2")] ∧
    mapGet (AddCustomParameters (AddCustomParameters examplePayment (some [("a", "old"), ("z", "9")])).1
      (some [("a", "new"), ("b", "2")])).1.customParams "shp_a" = some "new" ∧
    mapGet (AddCustomParameters (AddCustomParameters examplePayment (some [("a", "old"), ("z", "9")])).1
      (some [("a", "new"), ("b", "2")])).1.customParams "shp_z" = some "9" ∧
    (AddCustomParameters (AddCustomParameters examplePayment (some [("a", "old"), ("z", "9")])).1
      (some [("a", "new"), ("b", "2")])).1.customParams =
      [("shp_a", "new"), ("shp_z", "9"), ("shp_b", "2")] :=
  ⟨by decide,
    (C9_AddCustomParameters_merges
      (AddCustomParameters examplePayment (some [("a", "old"), ("z", "9")])).1
      [("a", "new"), ("b", "2")] (by decide)).2.2.2.1 "a" "new" (by decide),
    by decide, by decide⟩

/-- C10 (as stated, fails on the code): on a fresh Payment, whose amount is not set,
`GetPaymentUrl` with the mode `unknown` panics with `ErrInvalidSum`; it does not return the
empty URL with `ErrInvalidParam`. -/
theorem C10_counterexample :
    GetPaymentUrl (NewPayment "shop1" "pw" "vpw" false) "unknown" =
      (NewPayment "shop1" "pw" "vpw" false, .error (.err .InvalidSum)) ∧
    (GetPaymentUrl (NewPayment "shop1" "pw" "vpw" false) "unknown").2 ≠
      .ok ("", some .InvalidParam) := by
  refine ⟨by decide, by decide⟩

/-- C10 (amended): for a Payment with valid standard fields and a mode other than `base`,
`init_recurring` and `recurring`, `GetPaymentUrl` returns the empty URL and
`ErrInvalidParam`; when signing fails, `GetPaymentUrl` stops with the panic of
`getSignValue` whatever the mode is, and returns nothing. -/
theorem C10_unknown_mode_after_signing (p : Payment) (mode : String) (a : Float64)
    (desc : String) (inv : Int) (receipt : String) (h : ValidFields p a desc inv receipt)
    (h1 : mode ≠ "base") (h2 : mode ≠ "init_recurring") (h3 : mode ≠ "recurring") :
    (GetPaymentUrl p mode).2 = .ok ("", some .InvalidParam) ∧
    (∀ (q : Payment) (e : Panic), getSignValue q = .error e →
      GetPaymentUrl q mode = (q, .error e)) := by
  constructor
  · unfold GetPaymentUrl
    rw [getSignValue_valid h]
    simp only [h1, h2, h3, if_false]
  · intro q e he
    exact GetPaymentUrl_of_panic he mode

/-- The example Payment with the mode `unknown`, as an instance of amended C10. -/
theorem C10_witness :
    ValidFields examplePayment (.finite false 100 0) "order" 7 "r" ∧
    (GetPaymentUrl examplePayment "unknown").2 = .ok ("", some .InvalidParam) :=
  ⟨by decide,
    (C10_unknown_mode_after_signing examplePayment "unknown" (.finite false 100 0) "order" 7 "r"
      (by decide) (by decide) (by decide) (by decide)).1⟩

end Robokassa

namespace Robokassa

/-! ## `SetSum` -/

theorem GetSum_mapSet (p : Payment) (s : Float64) :
    GetSum { p with data := mapSet p.data "OutSum" (.float s) } = s := by
  simp [GetSum, mapIndex_mapSet_same, asFloat64]

theorem SetSum_of_pos (outOfRange : Float64 → Int) (p : Payment) (sum s : Float64)
    (h : truncate2 outOfRange sum = s) (hs : s.gtZero = true) :
    (SetSum outOfRange p sum).2 = none ∧ GetSum (SetSum outOfRange p sum).1 = s := by
  unfold SetSum
  simp only [h, hs, if_true]
  exact ⟨trivial, GetSum_mapSet p s⟩

theorem SetSum_of_not_pos (outOfRange : Float64 → Int) (p : Payment) (sum s : Float64)
    (h : truncate2 outOfRange sum = s) (hs : s.gtZero = false) :
    SetSum outOfRange p sum = (p, some .InvalidSum) := by
  unfold SetSum
  simp [h, hs]

/-- What `SetSum` stores is greater than zero, hence never NaN. -/
theorem SetSum_stores_positive (outOfRange : Float64 → Int) (p : Payment) (sum : Float64)
    (h : (SetSum outOfRange p sum).2 = none) :
    ∃ a, mapIndex (SetSum outOfRange p sum).1.data "OutSum" = .float a ∧ a.gtZero = true := by
  unfold SetSum at h ⊢
  by_cases hs : (truncate2 outOfRange sum).gtZero = true
  · simp only [hs, if_true]
    exact ⟨_, mapIndex_mapSet_same _ _ _, hs⟩
  · simp [hs] at h

theorem truncate2_of_fits (outOfRange : Float64 → Int) (sum : Float64) (n : Int)
    (h : (Float64.mul sum hundred).toInt? = some n) :
    truncate2 outOfRange sum = Float64.div (Float64.ofInt n) hundred := by
  simp [truncate2, toInt, h]

theorem truncate2_029 (outOfRange : Float64 → Int) :
    truncate2 outOfRange (decimal 29 100) = decimal 28 100 := by
  rw [truncate2_of_fits outOfRange _ 28 (by decide)]
  decide

theorem truncate2_0295 (outOfRange : Float64 → Int) :
    truncate2 outOfRange (decimal 295 1000) = decimal 29 100 := by
  rw [truncate2_of_fits outOfRange _ 29 (by decide)]
  decide

theorem truncate2_10567 (outOfRange : Float64 → Int) :
    truncate2 outOfRange (decimal 10567 1000) = decimal 1056 100 := by
  rw [truncate2_of_fits outOfRange _ 1056 (by decide)]
  decide

theorem truncate2_zero (outOfRange : Float64 → Int) :
    truncate2 outOfRange (decimal 0 1) = .finite false 0 0 := by
  rw [truncate2_of_fits outOfRange _ 0 (by decide)]
  decide

theorem truncate2_small (outOfRange : Float64 → Int) :
    truncate2 outOfRange (decimal 1 1000) = .finite false 0 0 := by
  rw [truncate2_of_fits outOfRange _ 0 (by decide)]
  decide

theorem truncate2_negative (outOfRange : Float64 → Int) :
    truncate2 outOfRange (Float64.ofRat true 5 1) = Float64.ofRat true 5 1 := by
  rw [truncate2_of_fits outOfRange _ (-500) (by decide)]
  decide

theorem truncate2_015 (outOfRange : Float64 → Int) :
    truncate2 outOfRange (decimal 15 100) = decimal 15 100 := by
  rw [truncate2_of_fits outOfRange _ 15 (by decide)]
  decide

/-- C13 (fails on the code): `SetSum` computes the hundredths in binary floating point.
`SetSum(0.29)` succeeds and stores 0.28, because `0.29 * 100` is `28.999999999999996`; the
amount 0.29 has two fractional digits and the claim says it is stored as it is.
`SetSum(0.15)` stores 0.15, because `0.15 * 100` rounds up to 15, although the exact value
of the float64 0.15 lies below 0.15 and has 14 whole hundredths: the stored amount is
neither the truncation of the decimal text nor the truncation of the exact value.  The
amount `1e17` is refused where the conversion to `int` overflows to the least integer.
The example of the specification holds: 10.567 is stored as 10.56.  The failures of the
claim hold: 0, 0.001 and -5 are refused with `ErrInvalidSum` and leave the Payment
unchanged. -/
theorem C13_SetSum_truncates_in_binary (outOfRange : Float64 → Int) (p : Payment) :
    (SetSum outOfRange p (decimal 29 100)).2 = none ∧
    GetSum (SetSum outOfRange p (decimal 29 100)).1 = decimal 28 100 ∧
    Float64.eq (decimal 28 100) (decimal 29 100) = false ∧
    fmtFloatV (decimal 29 100) = "0.29" ∧
    fmtFloatV (Float64.mul (decimal 29 100) hundred) = "28.999999999999996" ∧
    fmtFloatV (GetSum (SetSum outOfRange p (decimal 29 100)).1) = "0.28" ∧
    GetSum (SetSum outOfRange p (decimal 10567 1000)).1 = decimal 1056 100 ∧
    SetSum outOfRange p (decimal 0 1) = (p, some .InvalidSum) ∧
    SetSum outOfRange p (decimal 1 1000) = (p, some .InvalidSum) ∧
    SetSum outOfRange p (Float64.ofRat true 5 1) = (p, some .InvalidSum) ∧
    exactHundredths (decimal 29 100) = 28 ∧
    exactHundredths (decimal 15 100) = 14 ∧
    GetSum (SetSum outOfRange p (decimal 15 100)).1 = decimal 15 100 ∧
    Float64.eq (decimal 15 100) (decimal (exactHundredths (decimal 15 100)) 100) = false ∧
    SetSum amd64OutOfRange p (decimal (10 ^ 17) 1) = (p, some .InvalidSum) := by
  have h15 := SetSum_of_pos outOfRange p _ _ (truncate2_015 outOfRange) (by decide)
  have h29 := SetSum_of_pos outOfRange p _ _ (truncate2_029 outOfRange) (by decide)
  have h10 := SetSum_of_pos outOfRange p _ _ (truncate2_10567 outOfRange) (by decide)
  refine ⟨h29.1, h29.2, by decide, by decide, by decide, ?_, h10.2,
    SetSum_of_not_pos outOfRange p _ _ (truncate2_zero outOfRange) (by decide),
    SetSum_of_not_pos outOfRange p _ _ (truncate2_small outOfRange) (by decide),
    SetSum_of_not_pos outOfRange p _ _ (truncate2_negative outOfRange) (by decide),
    by decide, by decide, h15.2, by decide,
    SetSum_of_not_pos amd64OutOfRange p _ _ (by decide : truncate2 amd64OutOfRange
      (decimal (10 ^ 17) 1) = Float64.ofRat true (2 ^ 63) 100) (by decide)⟩
  rw [h29.2]
  decide

/-- C14 (fails on the code): the truncation of `SetSum` is not idempotent.  `SetSum(0.295)`
stores 0.29; `SetSum(GetSum())` then succeeds and stores 0.28, because `0.29 * 100` is
`28.999999999999996` in float64. -/
theorem C14_truncation_not_idempotent (outOfRange : Float64 → Int) (p : Payment) :
    (SetSum outOfRange p (decimal 295 1000)).2 = none ∧
    GetSum (SetSum outOfRange p (decimal 295 1000)).1 = decimal 29 100 ∧
    (SetSum outOfRange (SetSum outOfRange p (decimal 295 1000)).1
      (GetSum (SetSum outOfRange p (decimal 295 1000)).1)).2 = none ∧
    GetSum (SetSum outOfRange (SetSum outOfRange p (decimal 295 1000)).1
      (GetSum (SetSum outOfRange p (decimal 295 1000)).1)).1 = decimal 28 100 ∧
    truncate2 outOfRange (truncate2 outOfRange (decimal 295 1000)) = decimal 28 100 ∧
    truncate2 outOfRange (decimal 295 1000) = decimal 29 100 ∧
    Float64.eq (decimal 28 100) (decimal 29 100) = false := by
  have h1 := SetSum_of_pos outOfRange p _ _ (truncate2_0295 outOfRange) (by decide)
  have h2 := SetSum_of_pos outOfRange (SetSum outOfRange p (decimal 295 1000)).1 _ _
    (truncate2_029 outOfRange) (by decide)
  refine ⟨h1.1, h1.2, ?_, ?_, ?_, truncate2_0295 outOfRange, by decide⟩
  · rw [h1.2]; exact h2.1
  · rw [h1.2]; exact h2.2
  · rw [truncate2_0295, truncate2_029]

end Robokassa

namespace Robokassa

/-! ## The URL -/

set_option maxRecDepth 100000 in
/-- C11 (as stated, fails on the code): `NewPayment` gives the `init_recurring` endpoint the
same text as the `base` endpoint, and for the example Payment the two URLs are equal. -/
theorem C11_counterexample :
    (NewPayment "shop1" "pw" "vpw" false).baseInitRecurringUrl =
      (NewPayment "shop1" "pw" "vpw" false).baseUrl ∧
    (GetPaymentUrl examplePayment "init_recurring").2 = (GetPaymentUrl examplePayment "base").2 ∧
    (GetPaymentUrl examplePayment "base").2 = .ok
      ("https://auth.robokassa.ru/Merchant/Index.aspx?Culture=ru&Desc=order&Encoding=utf-8" ++
       "&IncCurrLabel=&InvId=7&IsTest=false&MerchantLogin=shop1&OutSum=100&Receipt=r" ++
       "&SignatureValue=ec9b6b8a31c2ab6ae9c95903c0445134&", none) := by
  refine ⟨by decide, by decide, by decide⟩

/-- C11 (amended): for a Payment with valid standard fields, the URLs of the modes `base` and
`init_recurring` are the endpoint fields `baseUrl` and `baseInitRecurringUrl` followed by one
and the same query string, and the two calls leave the same state; `NewPayment` sets both
endpoint fields to the same text, and whenever the two fields are equal the two URLs are
equal. -/
theorem C11_init_recurring_same_query (p : Payment) (a : Float64) (desc : String) (inv : Int)
    (receipt : String) (h : ValidFields p a desc inv receipt) :
    (∃ query : String,
      (GetPaymentUrl p "base").2 = .ok (p.baseUrl ++ query, none) ∧
      (GetPaymentUrl p "init_recurring").2 = .ok (p.baseInitRecurringUrl ++ query, none)) ∧
    (GetPaymentUrl p "init_recurring").1 = (GetPaymentUrl p "base").1 ∧
    (p.baseInitRecurringUrl = p.baseUrl →
      GetPaymentUrl p "init_recurring" = GetPaymentUrl p "base") ∧
    (∀ login pw vpw test, (NewPayment login pw vpw test).baseInitRecurringUrl =
      (NewPayment login pw vpw test).baseUrl) := by
  have hb : ("init_recurring" : String) ≠ "base" := by decide
  refine ⟨⟨valuesEncode (valuesOf fmtV (GetPaymentUrl p "base").1.data) ++ "&" ++
      valuesEncode (valuesOf id p.customParams), ?_, ?_⟩, ?_, ?_, fun _ _ _ _ => rfl⟩
  · unfold GetPaymentUrl
    rw [getSignValue_valid h]
    simp [String.append_assoc]
  · unfold GetPaymentUrl
    rw [getSignValue_valid h]
    simp [String.append_assoc]
  · unfold GetPaymentUrl
    rw [getSignValue_valid h]
    simp
  · intro e
    unfold GetPaymentUrl
    rw [getSignValue_valid h]
    simp [e]

/-- The example Payment, as an instance of amended C11. -/
theorem C11_witness :
    ValidFields examplePayment (.finite false 100 0) "order" 7 "r" ∧
    (GetPaymentUrl examplePayment "init_recurring").1 = (GetPaymentUrl examplePayment "base").1 :=
  ⟨by decide,
    (C11_init_recurring_same_query examplePayment (.finite false 100 0) "order" 7 "r"
      (by decide)).2.1⟩

set_option maxRecDepth 100000 in
/-- C12 (fails on the code): `GetPaymentUrl` writes the amount in the URL with `%v`, not with
the `%0.2f` of the signing string.  For the amount 100 the URL carries `OutSum=100` while
the signature is computed over `100.00`; for the amount 1000000 the URL carries `1e+06`,
escaped as `1e%2B06`, in scientific notation. -/
theorem C12_OutSum_in_URL_uses_percent_v :
    signatureInput examplePayment = .ok "shop1:100.00:7:r:pw" ∧
    mapGet (valuesOf fmtV (GetPaymentUrl examplePayment "base").1.data) "OutSum" = some "100" ∧
    (GetPaymentUrl examplePayment "base").2 = .ok
      ("https://auth.robokassa.ru/Merchant/Index.aspx?Culture=ru&Desc=order&Encoding=utf-8" ++
       "&IncCurrLabel=&InvId=7&IsTest=false&MerchantLogin=shop1&OutSum=100&Receipt=r" ++
       "&SignatureValue=ec9b6b8a31c2ab6ae9c95903c0445134&", none) ∧
    signatureInput millionPayment = .ok "shop1:1000000.00:7:r:pw" ∧
    mapGet (valuesOf fmtV (GetPaymentUrl millionPayment "base").1.data) "OutSum" = some "1e+06" ∧
    (GetPaymentUrl millionPayment "base").2 = .ok
      ("https://auth.robokassa.ru/Merchant/Index.aspx?Culture=ru&Desc=order&Encoding=utf-8" ++
       "&IncCurrLabel=&InvId=7&IsTest=false&MerchantLogin=shop1&OutSum=1e%2B06&Receipt=r" ++
       "&SignatureValue=" ++ md5Hex "shop1:1000000.00:7:r:pw" ++ "&", none) := by
  refine ⟨by decide, by decide, by decide, by decide, by decide, by decide⟩

end Robokassa

namespace Robokassa

/-! ## What the signature reads, and what the calls change -/

theorem signatureInput_reads (p q : Payment) (h1 : q.login = p.login)
    (h2 : q.paymentPassword = p.paymentPassword) (h3 : q.customParams = p.customParams)
    (h4 : mapIndex q.data "OutSum" = mapIndex p.data "OutSum")
    (h5 : mapIndex q.data "Desc" = mapIndex p.data "Desc")
    (h6 : mapIndex q.data "InvId" = mapIndex p.data "InvId")
    (h7 : mapIndex q.data "Receipt" = mapIndex p.data "Receipt") :
    signatureInput q = signatureInput p := by
  unfold signatureInput
  rw [h1, h2, h3, h4, h5, h6, h7]

theorem getSignValue_reads (p q : Payment) (h1 : q.login = p.login)
    (h2 : q.paymentPassword = p.paymentPassword) (h3 : q.customParams = p.customParams)
    (h4 : mapIndex q.data "OutSum" = mapIndex p.data "OutSum")
    (h5 : mapIndex q.data "Desc" = mapIndex p.data "Desc")
    (h6 : mapIndex q.data "InvId" = mapIndex p.data "InvId")
    (h7 : mapIndex q.data "Receipt" = mapIndex p.data "Receipt") :
    getSignValue q = getSignValue p := by
  unfold getSignValue
  rw [signatureInput_reads p q h1 h2 h3 h4 h5 h6 h7]

theorem getSignValue_mapSet_other (p : Payment) (k : String) (v : Value) (b : Bool)
    (n1 : "OutSum" ≠ k) (n2 : "Desc" ≠ k) (n3 : "InvId" ≠ k) (n4 : "Receipt" ≠ k) :
    getSignValue { p with isTestMode := b, data := mapSet p.data k v } = getSignValue p :=
  getSignValue_reads p _ rfl rfl rfl (mapIndex_mapSet_other _ _ _ _ n1)
    (mapIndex_mapSet_other _ _ _ _ n2) (mapIndex_mapSet_other _ _ _ _ n3)
    (mapIndex_mapSet_other _ _ _ _ n4)

/-- C16: the locale, the currency label and the test-mode flag do not take part in the
signature.  `SetCulture` and `SetCurrencyLabel` with any argument, and any change of the
test-mode flag and of the `IsTest` entry, leave the result of `getSignValue` unchanged; two
Payments with the same login, signing secret, custom parameters, amount, description,
invoice id and receipt have the same signature, whatever their other fields are. -/
theorem C16_locale_label_testmode_not_signed (p : Payment) :
    (∀ culture, getSignValue (SetCulture p culture) = getSignValue p) ∧
    (∀ label, getSignValue (SetCurrencyLabel p label) = getSignValue p) ∧
    (∀ test, getSignValue { p with isTestMode := test, data := mapSet p.data "IsTest" (.bool test) } =
      getSignValue p) ∧
    (∀ q : Payment, q.login = p.login → q.paymentPassword = p.paymentPassword →
      q.customParams = p.customParams →
      mapIndex q.data "OutSum" = mapIndex p.data "OutSum" →
      mapIndex q.data "Desc" = mapIndex p.data "Desc" →
      mapIndex q.data "InvId" = mapIndex p.data "InvId" →
      mapIndex q.data "Receipt" = mapIndex p.data "Receipt" →
      getSignValue q = getSignValue p) ∧
    (∀ login pw vpw, getSignValue (NewPayment login pw vpw true) =
      getSignValue (NewPayment login pw vpw false)) := by
  refine ⟨?_, ?_, ?_, ?_, ?_⟩
  · intro culture
    exact getSignValue_mapSet_other p "Culture" _ p.isTestMode (by decide) (by decide)
      (by decide) (by decide)
  · intro label
    exact getSignValue_mapSet_other p "IncCurrLabel" _ p.isTestMode (by decide) (by decide)
      (by decide) (by decide)
  · intro test
    exact getSignValue_mapSet_other p "IsTest" _ test (by decide) (by decide)
      (by decide) (by decide)
  · intro q h1 h2 h3 h4 h5 h6 h7
    exact getSignValue_reads p q h1 h2 h3 h4 h5 h6 h7
  · intro login pw vpw
    rfl

/-- The example Payment in test mode and in English, as an instance of C16. -/
theorem C16_witness :
    getSignValue (SetCulture examplePayment CultureEn) = getSignValue examplePayment ∧
    getSignValue testModePayment = getSignValue examplePayment :=
  ⟨(C16_locale_label_testmode_not_signed examplePayment).1 CultureEn,
    (C16_locale_label_testmode_not_signed examplePayment).2.2.2.1 testModePayment
      (by decide) (by decide) (by decide) (by decide) (by decide) (by decide) (by decide)⟩

set_option maxRecDepth 100000 in
/-- C17 (fails on the code): `validate` does not keep the inbound fields, and
`GetSuccessAnswer` reads the invoice id of the Payment.  On a fresh Payment, after
`ValidateResult` accepted a notification for the invoice 5, `GetSuccessAnswer` returns
`OK0` and a newline. -/
theorem C17_GetSuccessAnswer_ignores_inbound_InvId :
    (ValidateResult asciiOrbit (NewPayment "shop1" "pw" "vpw" false) invoiceFiveFields).2 = .ok true ∧
    mapIndex invoiceFiveFields "InvId" = .int 5 ∧
    GetSuccessAnswer (ValidateResult asciiOrbit (NewPayment "shop1" "pw" "vpw" false)
      invoiceFiveFields).1 = "OK0\n" := by
  refine ⟨by decide, by decide, by decide⟩

theorem validate_records (foldOrbit : Char → Char → Bool) (p : Payment)
    (data : List (String × Value)) (passwordType : String) (b : Bool)
    (h : (validate foldOrbit p data passwordType).2 = .ok b) :
    (validate foldOrbit p data passwordType).1 = { p with valid := b } := by
  unfold validate at h ⊢
  cases hs : mapIndex data "SignatureValue" <;> simp only [hs] at h ⊢
  all_goals first
    | (cases h; rfl)
    | (simp at h)

/-- C18: `IsValid` is false on a fresh Payment; after a `ValidateResult` or
`ValidateSuccess` call that returns `b`, `IsValid` is `b` whatever it was before, and the
call changed nothing else in the Payment. -/
theorem C18_verifier_records_outcome (foldOrbit : Char → Char → Bool) (p : Payment)
    (data : List (String × Value)) (b : Bool) :
    (∀ login pw vpw test, IsValid (NewPayment login pw vpw test) = false) ∧
    ((ValidateResult foldOrbit p data).2 = .ok b →
      IsValid (ValidateResult foldOrbit p data).1 = b ∧
      (ValidateResult foldOrbit p data).1 = { p with valid := b }) ∧
    ((ValidateSuccess foldOrbit p data).2 = .ok b →
      IsValid (ValidateSuccess foldOrbit p data).1 = b ∧
      (ValidateSuccess foldOrbit p data).1 = { p with valid := b }) := by
  refine ⟨fun _ _ _ _ => rfl, ?_, ?_⟩
  · intro h
    have := validate_records foldOrbit p data "validation" b h
    unfold ValidateResult
    rw [this]
    exact ⟨rfl, rfl⟩
  · intro h
    have := validate_records foldOrbit p data "payment" b h
    unfold ValidateSuccess
    rw [this]
    exact ⟨rfl, rfl⟩

set_option maxRecDepth 100000 in
/-- A rejected notification after an accepted one, as an instance of C18. -/
theorem C18_witness :
    (ValidateResult asciiOrbit { examplePayment with valid := true } mixedCaseFields).2 = .ok true ∧
    (ValidateSuccess asciiOrbit { examplePayment with valid := true } mixedCaseFields).2 = .ok false ∧
    IsValid (ValidateSuccess asciiOrbit { examplePayment with valid := true } mixedCaseFields).1 = false ∧
    (ValidateSuccess asciiOrbit { examplePayment with valid := true } mixedCaseFields).1 =
      { examplePayment with valid := false } :=
  ⟨by decide, by decide,
    ((C18_verifier_records_outcome asciiOrbit { examplePayment with valid := true }
      mixedCaseFields false).2.2 (by decide)).1,
    by decide⟩

/-- C19: when `getSignValue` fails, `GetPaymentUrl` (any mode) and
`GetPaymentRecurringParams` stop with the same failure and leave the Payment, the stored
`SignatureValue` and the custom parameters included, exactly as it was; once the fields are
valid the same calls do not fail in signing, `GetPaymentRecurringParams` and the three
modes of `GetPaymentUrl` return without error. -/
theorem C19_failed_signing_leaves_state (p : Payment) (mode : String) (e : Panic)
    (h : getSignValue p = .error e) :
    GetPaymentUrl p mode = (p, .error e) ∧
    GetPaymentRecurringParams p = (p, .error e) ∧
    (∀ (q : Payment) a desc inv receipt, ValidFields q a desc inv receipt →
      (∃ r, (GetPaymentUrl q mode).2 = .ok r) ∧
      (∃ url, (GetPaymentUrl q "base").2 = .ok (url, none)) ∧
      (∃ url, (GetPaymentUrl q "init_recurring").2 = .ok (url, none)) ∧
      (∃ url, (GetPaymentUrl q "recurring").2 = .ok (url, none)) ∧
      (∃ params, (GetPaymentRecurringParams q).2 = .ok (params, none))) := by
  refine ⟨GetPaymentUrl_of_panic h mode, GetPaymentRecurringParams_of_panic h, ?_⟩
  intro q a desc inv receipt hv
  refine ⟨?_, ?_, ?_, ?_, ?_⟩
  · unfold GetPaymentUrl
    rw [getSignValue_valid hv]
    simp only []
    split_ifs <;> exact ⟨_, rfl⟩
  · unfold GetPaymentUrl
    rw [getSignValue_valid hv]
    exact ⟨_, rfl⟩
  · unfold GetPaymentUrl
    rw [getSignValue_valid hv]
    exact ⟨_, rfl⟩
  · unfold GetPaymentUrl
    rw [getSignValue_valid hv]
    exact ⟨_, rfl⟩
  · unfold GetPaymentRecurringParams
    rw [getSignValue_valid hv]
    exact ⟨_, rfl⟩

/-- A Payment without description, as an instance of C19: the call fails and changes
nothing, and succeeds after `SetDescription`. -/
theorem C19_witness :
    getSignValue undescribedPayment = .error (.err .EmptyDescription) ∧
    GetPaymentUrl undescribedPayment "base" =
      (undescribedPayment, .error (.err .EmptyDescription)) ∧
    ValidFields (SetDescription undescribedPayment "order") (.finite false 100 0) "order" 7 "r" ∧
    (∃ url, (GetPaymentUrl (SetDescription undescribedPayment "order") "base").2 = .ok (url, none)) :=
  ⟨by decide,
    (C19_failed_signing_leaves_state undescribedPayment "base" (.err .EmptyDescription)
      (by decide)).1,
    by decide,
    ((C19_failed_signing_leaves_state undescribedPayment "base" (.err .EmptyDescription)
      (by decide)).2.2 (SetDescription undescribedPayment "order") (.finite false 100 0) "order" 7
      "r" (by decide)).2.1⟩

end Robokassa

namespace Robokassa

/-! ## Sensitivity of the signing string -/

theorem str_append_left_cancel {a b c : String} (h : a ++ b = a ++ c) : b = c := by
  have := congrArg String.data h
  simp only [String.data_append, List.append_cancel_left_eq] at this
  exact String.ext this

theorem str_append_right_cancel {a b c : String} (h : a ++ c = b ++ c) : a = b := by
  have := congrArg String.data h
  simp only [String.data_append, List.append_cancel_right_eq] at this
  exact String.ext this

/-- The number that a list of decimal digits, least significant first, denotes. -/
theorem digitsRev_value : ∀ (fuel n : Nat), n < fuel →
    (digitsRev fuel n).foldr (fun d acc => d + 10 * acc) 0 = n
  | 0, _, h => by omega
  | fuel + 1, n, h => by
    unfold digitsRev
    split
    · simp
    · have hlt : n / 10 < fuel := by omega
      simp only [List.foldr_cons, digitsRev_value fuel (n / 10) hlt]
      omega

theorem digitChar_injective {a b : Nat} (ha : a < 10) (hb : b < 10)
    (h : digitChar a = digitChar b) : a = b := by
  have h1 := congrArg Char.toNat h
  unfold digitChar at h1
  rw [toNat_ofNat (by omega), toNat_ofNat (by omega)] at h1
  omega

theorem map_digitChar_injective : ∀ (l1 l2 : List Nat), (∀ d ∈ l1, d < 10) → (∀ d ∈ l2, d < 10) →
    l1.map digitChar = l2.map digitChar → l1 = l2
  | [], [], _, _, _ => rfl
  | [], _ :: _, _, _, h => by simp at h
  | _ :: _, [], _, _, h => by simp at h
  | a :: as, b :: bs, h1, h2, h => by
    simp only [List.map_cons, List.cons.injEq] at h
    have e1 : a = b := digitChar_injective (h1 a (List.mem_cons_self _ _))
      (h2 b (List.mem_cons_self _ _)) h.1
    have e2 : as = bs := map_digitChar_injective as bs
      (fun d hd => h1 d (List.mem_cons_of_mem _ hd))
      (fun d hd => h2 d (List.mem_cons_of_mem _ hd)) h.2
    rw [e1, e2]

theorem natToString_injective {n m : Nat} (h : natToString n = natToString m) : n = m := by
  unfold natToString at h
  have h1 : List.map digitChar (digitsRev (n + 1) n).reverse =
      List.map digitChar (digitsRev (m + 1) m).reverse := by
    simpa using congrArg String.data h
  have h2 := map_digitChar_injective _ _
    (fun d hd => digitsRev_lt _ _ d (List.mem_reverse.mp hd))
    (fun d hd => digitsRev_lt _ _ d (List.mem_reverse.mp hd)) h1
  have h3 : digitsRev (n + 1) n = digitsRev (m + 1) m := List.reverse_injective h2
  have h4 := digitsRev_value (n + 1) n (Nat.lt_succ_self n)
  rw [h3, digitsRev_value (m + 1) m (Nat.lt_succ_self m)] at h4
  exact h4.symm

theorem natToString_ne_minus (n m : Nat) : natToString n ≠ "-" ++ natToString m := by
  intro h
  have hd := (natToString_digits n).2
  have hne := (natToString_digits n).1
  have h1 : (natToString n).data = '-' :: (natToString m).data := by
    simpa using congrArg String.data h
  rw [h1] at hd
  have := hd '-' (List.mem_cons_self _ _)
  exact absurd this (by decide)

theorem intToString_injective {a b : Int} (h : intToString a = intToString b) : a = b := by
  cases a with
  | ofNat n =>
    cases b with
    | ofNat m =>
      simp only [intToString] at h
      rw [natToString_injective h]
    | negSucc m =>
      simp only [intToString] at h
      exact absurd h (natToString_ne_minus _ _)
  | negSucc n =>
    cases b with
    | ofNat m =>
      simp only [intToString] at h
      exact absurd h.symm (natToString_ne_minus _ _)
    | negSucc m =>
      simp only [intToString] at h
      have := natToString_injective (str_append_left_cancel h)
      have e : n = m := by omega
      rw [e]

end Robokassa

namespace Robokassa

/-! ## Rounding -/

theorem roundHalfEven_bounds (num den : Nat) (hden : 0 < den) :
    ((roundHalfEven num den : Nat) : ℚ) - 1 / 2 ≤ (num : ℚ) / den ∧
    (num : ℚ) / den ≤ ((roundHalfEven num den : Nat) : ℚ) + 1 / 2 := by
  have hd : (0 : ℚ) < den := by exact_mod_cast hden
  have hsplit : (num : ℚ) = (den : ℚ) * ((num / den : Nat) : ℚ) + ((num % den : Nat) : ℚ) := by
    exact_mod_cast (Nat.div_add_mod num den).symm
  have hr : ((num % den : Nat) : ℚ) < den := by exact_mod_cast Nat.mod_lt num hden
  have hr0 : (0 : ℚ) ≤ ((num % den : Nat) : ℚ) := by positivity
  have key : ∀ R : ℚ, (R - 1 / 2) * den ≤ num → (num : ℚ) ≤ (R + 1 / 2) * den →
      R - 1 / 2 ≤ (num : ℚ) / den ∧ (num : ℚ) / den ≤ R + 1 / 2 := by
    intro R a b
    exact ⟨(le_div_iff₀ hd).mpr a, (div_le_iff₀ hd).mpr b⟩
  apply key
  all_goals unfold roundHalfEven
  all_goals simp only []
  all_goals split_ifs with h1 h2 h3
  · have h1' : (den : ℚ) < 2 * ((num % den : Nat) : ℚ) := by exact_mod_cast h1
    push_cast
    nlinarith
  · have h2' : 2 * ((num % den : Nat) : ℚ) = den := by exact_mod_cast h2
    push_cast
    nlinarith
  · have h2' : 2 * ((num % den : Nat) : ℚ) = den := by exact_mod_cast h2
    nlinarith
  · have h1' : 2 * ((num % den : Nat) : ℚ) ≤ den := by
      have : 2 * (num % den) ≤ den := by omega
      exact_mod_cast this
    nlinarith
  · have h1' : (den : ℚ) < 2 * ((num % den : Nat) : ℚ) := by exact_mod_cast h1
    push_cast
    nlinarith
  · have h2' : 2 * ((num % den : Nat) : ℚ) = den := by exact_mod_cast h2
    push_cast
    nlinarith
  · have h2' : 2 * ((num % den : Nat) : ℚ) = den := by exact_mod_cast h2
    nlinarith
  · have h1' : 2 * ((num % den : Nat) : ℚ) ≤ den := by
      have : 2 * (num % den) ≤ den := by omega
      exact_mod_cast this
    nlinarith

theorem roundHalfEven_scale (c num den : Nat) (hc : 0 < c) :
    roundHalfEven (c * num) (c * den) = roundHalfEven num den := by
  unfold roundHalfEven
  simp only [Nat.mul_div_mul_left _ _ hc, Nat.mul_mod_mul_left]
  have e1 : (2 * (c * (num % den)) > c * den) ↔ (2 * (num % den) > den) := by
    rw [show 2 * (c * (num % den)) = c * (2 * (num % den)) by ring]
    exact Nat.mul_lt_mul_left hc
  have e2 : (2 * (c * (num % den)) = c * den) ↔ (2 * (num % den) = den) := by
    rw [show 2 * (c * (num % den)) = c * (2 * (num % den)) by ring]
    exact Nat.mul_right_inj (by omega)
  simp only [e1, e2]

theorem roundHalfEven_one (num : Nat) : roundHalfEven num 1 = num := by
  simp [roundHalfEven, Nat.mod_one]

end Robokassa

namespace Robokassa

theorem bitLength_spec : ∀ (fuel n : Nat), n < fuel → 0 < n →
    n < 2 ^ bitLength fuel n ∧ 2 ^ bitLength fuel n ≤ 2 * n
  | 0, _, h, _ => by omega
  | fuel + 1, n, h, hn => by
    have hne : n ≠ 0 := by omega
    simp only [bitLength, hne, if_false]
    by_cases h2 : n / 2 = 0
    · have h1 : n = 1 := by omega
      subst h1
      cases fuel with
      | zero => simp [bitLength]
      | succ f => simp [bitLength]
    · have ih := bitLength_spec fuel (n / 2) (by omega) (by omega)
      rw [pow_succ]
      constructor
      · omega
      · omega

theorem ratGePow2_iff (num den : Nat) (hden : 0 < den) (l : Int) :
    Float64.ratGePow2 num den l = true ↔ (2 : ℚ) ^ l ≤ (num : ℚ) / den := by
  have hd : (0 : ℚ) < den := by exact_mod_cast hden
  cases l with
  | ofNat k =>
    simp only [Float64.ratGePow2, decide_eq_true_eq, Int.ofNat_eq_coe, zpow_natCast]
    rw [le_div_iff₀ hd]
    constructor
    · intro h
      have : ((den * 2 ^ k : Nat) : ℚ) ≤ num := by exact_mod_cast h
      push_cast at this
      linarith
    · intro h
      have : ((den * 2 ^ k : Nat) : ℚ) ≤ num := by
        push_cast
        linarith
      exact_mod_cast this
  | negSucc k =>
    simp only [Float64.ratGePow2, decide_eq_true_eq, zpow_negSucc]
    have hp : (0 : ℚ) < 2 ^ (k + 1) := by positivity
    rw [le_div_iff₀ hd, inv_mul_le_iff₀ hp]
    constructor
    · intro h
      have : ((den : Nat) : ℚ) ≤ ((num * 2 ^ (k + 1) : Nat) : ℚ) := by exact_mod_cast h
      push_cast at this
      linarith
    · intro h
      have : ((den : Nat) : ℚ) ≤ ((num * 2 ^ (k + 1) : Nat) : ℚ) := by
        push_cast
        linarith
      exact_mod_cast this

theorem ratLog2_spec (num den : Nat) (hnum : 0 < num) (hden : 0 < den) :
    (2 : ℚ) ^ Float64.ratLog2 num den ≤ (num : ℚ) / den ∧
    (num : ℚ) / den < (2 : ℚ) ^ (Float64.ratLog2 num den + 1) := by
  have hd : (0 : ℚ) < den := by exact_mod_cast hden
  have hn : (0 : ℚ) < num := by exact_mod_cast hnum
  obtain ⟨n1, n2⟩ := bitLength_spec (num + 1) num (Nat.lt_succ_self _) hnum
  obtain ⟨d1, d2⟩ := bitLength_spec (den + 1) den (Nat.lt_succ_self _) hden
  generalize hbn : bitLength (num + 1) num = bn at n1 n2
  generalize hbd : bitLength (den + 1) den = bd at d1 d2
  have n1' : (num : ℚ) < 2 ^ bn := by exact_mod_cast n1
  have n2' : (2 : ℚ) ^ bn ≤ 2 * num := by exact_mod_cast n2
  have d1' : (den : ℚ) < 2 ^ bd := by exact_mod_cast d1
  have d2' : (2 : ℚ) ^ bd ≤ 2 * den := by exact_mod_cast d2
  have hpn : (0 : ℚ) < 2 ^ bn := by positivity
  have hpd : (0 : ℚ) < 2 ^ bd := by positivity
  have hl0 : (2 : ℚ) ^ ((bn : Int) - (bd : Int)) = 2 ^ bn / 2 ^ bd := by
    rw [zpow_sub₀ (by norm_num), zpow_natCast, zpow_natCast]
  have up : (num : ℚ) / den < 2 * (2 ^ bn / 2 ^ bd) := by
    rw [div_lt_iff₀ hd]
    have : 2 * ((2 : ℚ) ^ bn / 2 ^ bd) * den = (2 ^ bn) * (2 * den) / 2 ^ bd := by ring
    rw [this, lt_div_iff₀ hpd]
    nlinarith
  have low : (2 : ℚ) ^ bn / 2 ^ bd / 2 ≤ (num : ℚ) / den := by
    rw [le_div_iff₀ hd, div_div, div_mul_eq_mul_div, div_le_iff₀ (by positivity)]
    nlinarith
  unfold Float64.ratLog2
  simp only [hbn, hbd]
  by_cases hge : Float64.ratGePow2 num den ((bn : Int) - (bd : Int)) = true
  · simp only [hge, if_true]
    refine ⟨(ratGePow2_iff num den hden _).mp hge, ?_⟩
    rw [zpow_add_one₀ (by norm_num), hl0]
    linarith
  · simp only [hge, if_false, Bool.false_eq_true]
    have hlt : (num : ℚ) / den < (2 : ℚ) ^ ((bn : Int) - (bd : Int)) := by
      by_contra hc
      exact hge ((ratGePow2_iff num den hden _).mpr (not_lt.mp hc))
    refine ⟨?_, by simpa using hlt⟩
    rw [zpow_sub_one₀ (by norm_num), hl0]
    have : (2 : ℚ) ^ bn / 2 ^ bd * 2⁻¹ = 2 ^ bn / 2 ^ bd / 2 := by ring
    rw [this]
    exact low

theorem zpow_two_unique (x : ℚ) (l l' : Int) (h1 : (2 : ℚ) ^ l ≤ x) (h2 : x < (2 : ℚ) ^ (l + 1))
    (h1' : (2 : ℚ) ^ l' ≤ x) (h2' : x < (2 : ℚ) ^ (l' + 1)) : l = l' := by
  have a : (2 : ℚ) ^ l < (2 : ℚ) ^ (l' + 1) := lt_of_le_of_lt h1 h2'
  have b : (2 : ℚ) ^ l' < (2 : ℚ) ^ (l + 1) := lt_of_le_of_lt h1' h2
  have a' := (zpow_lt_zpow_iff_right₀ (by norm_num : (1 : ℚ) < 2)).mp a
  have b' := (zpow_lt_zpow_iff_right₀ (by norm_num : (1 : ℚ) < 2)).mp b
  omega

theorem ratLog2_scale (c num den : Nat) (hc : 0 < c) (hnum : 0 < num) (hden : 0 < den) :
    Float64.ratLog2 (c * num) (c * den) = Float64.ratLog2 num den := by
  have s1 := ratLog2_spec (c * num) (c * den) (Nat.mul_pos hc hnum) (Nat.mul_pos hc hden)
  have s2 := ratLog2_spec num den hnum hden
  have hcq : (c : ℚ) ≠ 0 := by
    have : (0 : ℚ) < c := by exact_mod_cast hc
    exact ne_of_gt this
  have e : ((c * num : Nat) : ℚ) / ((c * den : Nat) : ℚ) = (num : ℚ) / den := by
    push_cast
    rw [mul_div_mul_left _ _ hcq]
  rw [e] at s1
  exact zpow_two_unique _ _ _ s1.1 s1.2 s2.1 s2.2

end Robokassa

namespace Robokassa

theorem ofRat_scale (neg : Bool) (c num den : Nat) (hc : 0 < c) (hden : 0 < den) :
    Float64.ofRat neg (c * num) (c * den) = Float64.ofRat neg num den := by
  by_cases hnum : num = 0
  · simp [Float64.ofRat, hnum]
  · have hnum' : 0 < num := Nat.pos_of_ne_zero hnum
    have hcn : c * num ≠ 0 := Nat.pos_iff_ne_zero.mp (Nat.mul_pos hc hnum')
    have hm : ∀ e : Int,
        (match e with
          | .ofNat k => roundHalfEven (c * num) (c * den * 2 ^ k)
          | .negSucc k => roundHalfEven (c * num * 2 ^ (k + 1)) (c * den)) =
        (match e with
          | .ofNat k => roundHalfEven num (den * 2 ^ k)
          | .negSucc k => roundHalfEven (num * 2 ^ (k + 1)) den) := by
      intro e
      cases e with
      | ofNat k => simp only [Nat.mul_assoc, roundHalfEven_scale _ _ _ hc]
      | negSucc k => simp only [Nat.mul_assoc, roundHalfEven_scale _ _ _ hc]
    simp only [Float64.ofRat, hnum, hcn, if_false, ratLog2_scale c num den hc hnum' hden, hm]

/-- The hundredths that `%0.2f` prints are within one half of a hundred times the value. -/
theorem hundredths_spec (mant : Nat) (exp : Int) :
    ((hundredths mant exp : Nat) : ℚ) - 1 / 2 ≤ 100 * ((mant : ℚ) * 2 ^ exp) ∧
    100 * ((mant : ℚ) * 2 ^ exp) ≤ ((hundredths mant exp : Nat) : ℚ) + 1 / 2 := by
  cases exp with
  | ofNat k =>
    simp only [hundredths, Int.ofNat_eq_coe, zpow_natCast]
    push_cast
    constructor <;> nlinarith
  | negSucc k =>
    simp only [hundredths, zpow_negSucc]
    have h := roundHalfEven_bounds (mant * 100) (2 ^ (k + 1)) (by positivity)
    have e : (((mant * 100 : Nat) : ℚ)) / ((2 ^ (k + 1) : Nat) : ℚ) =
        100 * ((mant : ℚ) * ((2 : ℚ) ^ (k + 1))⁻¹) := by
      push_cast
      field_simp
      ring
    rw [e] at h
    exact h

theorem ofRat_spec (num den : Nat) (hnum : 0 < num) (hden : 0 < den)
    (hl : -1074 ≤ Float64.ratLog2 num den - 52) :
    (Float64.ofRat false num den = .inf false ∧ 971 < Float64.ratLog2 num den - 52 + 1) ∨
    ∃ (m : Nat) (e : Int), Float64.ofRat false num den = .finite false m e ∧
      2 ^ 52 ≤ m ∧ m < 2 ^ 53 ∧ Float64.ratLog2 num den - 52 ≤ e ∧
      (num : ℚ) / den - (2 : ℚ) ^ e / 2 ≤ (m : ℚ) * 2 ^ e ∧
      (m : ℚ) * 2 ^ e ≤ (num : ℚ) / den + (2 : ℚ) ^ e / 2 := by
  have hne : num ≠ 0 := by omega
  obtain ⟨l1, l2⟩ := ratLog2_spec num den hnum hden
  generalize hlv : Float64.ratLog2 num den = l at *
  have hnot : ¬ (l - 52 < -1074) := by omega
  have hd : (0 : ℚ) < den := by exact_mod_cast hden
  have hpe : (0 : ℚ) < (2 : ℚ) ^ (l - 52) := by positivity
  -- the pre-rounded mantissa
  have hy : ∃ mp : Nat,
      (match (l - 52 : Int) with
        | .ofNat k => roundHalfEven num (den * 2 ^ k)
        | .negSucc k => roundHalfEven (num * 2 ^ (k + 1)) den) = mp ∧
      (mp : ℚ) - 1 / 2 ≤ (num : ℚ) / den / 2 ^ (l - 52) ∧
      (num : ℚ) / den / 2 ^ (l - 52) ≤ (mp : ℚ) + 1 / 2 := by
    generalize (l - 52 : Int) = e
    cases e with
    | ofNat k =>
      refine ⟨_, rfl, ?_⟩
      have h := roundHalfEven_bounds num (den * 2 ^ k) (by positivity)
      have e1 : (num : ℚ) / ((den * 2 ^ k : Nat) : ℚ) = (num : ℚ) / den / 2 ^ (Int.ofNat k) := by
        simp only [Int.ofNat_eq_coe, zpow_natCast]
        push_cast
        rw [div_div]
      rw [e1] at h
      exact h
    | negSucc k =>
      refine ⟨_, rfl, ?_⟩
      have h := roundHalfEven_bounds (num * 2 ^ (k + 1)) den hden
      have e1 : ((num * 2 ^ (k + 1) : Nat) : ℚ) / (den : ℚ) =
          (num : ℚ) / den / 2 ^ (Int.negSucc k) := by
        simp only [zpow_negSucc]
        push_cast
        field_simp
      rw [e1] at h
      exact h
  obtain ⟨mp, hmp, b1, b2⟩ := hy
  have y1 : (2 : ℚ) ^ (52 : Nat) ≤ (num : ℚ) / den / 2 ^ (l - 52) := by
    rw [le_div_iff₀ hpe]
    have : (2 : ℚ) ^ (52 : Nat) * 2 ^ (l - 52) = 2 ^ l := by
      rw [← zpow_natCast, ← zpow_add₀ (by norm_num)]
      congr 1
      omega
    rw [this]
    exact l1
  have y2 : (num : ℚ) / den / 2 ^ (l - 52) < (2 : ℚ) ^ (53 : Nat) := by
    rw [div_lt_iff₀ hpe]
    have : (2 : ℚ) ^ (53 : Nat) * 2 ^ (l - 52) = 2 ^ (l + 1) := by
      rw [← zpow_natCast, ← zpow_add₀ (by norm_num)]
      congr 1
      omega
    rw [this]
    exact l2
  have m1 : 2 ^ 52 ≤ mp := by
    by_contra hc
    have : mp + 1 ≤ 2 ^ 52 := by omega
    have : ((mp + 1 : Nat) : ℚ) ≤ ((2 ^ 52 : Nat) : ℚ) := by exact_mod_cast this
    push_cast at this
    linarith
  have m2 : mp ≤ 2 ^ 53 := by
    by_contra hc
    have : 2 ^ 53 + 1 ≤ mp := by omega
    have : ((2 ^ 53 + 1 : Nat) : ℚ) ≤ (mp : ℚ) := by exact_mod_cast this
    push_cast at this
    linarith
  -- back to the value
  have v1 : (num : ℚ) / den - (2 : ℚ) ^ (l - 52) / 2 ≤ (mp : ℚ) * 2 ^ (l - 52) := by
    have := (le_div_iff₀ hpe).mp b1
    have := (div_le_iff₀ hpe).mp b2
    nlinarith
  have v2 : (mp : ℚ) * 2 ^ (l - 52) ≤ (num : ℚ) / den + (2 : ℚ) ^ (l - 52) / 2 := by
    have := (le_div_iff₀ hpe).mp b1
    nlinarith
  unfold Float64.ofRat
  simp only [hne, if_false, hlv, hnot, hmp]
  by_cases h53 : mp = 2 ^ 53
  · simp only [h53, if_true]
    by_cases hov : l - 52 + 1 > 971
    · left
      exact ⟨by simp [hov], hov⟩
    · right
      refine ⟨2 ^ 52, l - 52 + 1, by simp [hov], le_refl _, by norm_num, by omega, ?_, ?_⟩
      · have e2 : ((2 ^ 52 : Nat) : ℚ) * 2 ^ (l - 52 + 1) = ((2 ^ 53 : Nat) : ℚ) * 2 ^ (l - 52) := by
          rw [zpow_add_one₀ (by norm_num)]
          push_cast
          ring
        rw [e2, ← h53]
        have : (2 : ℚ) ^ (l - 52 + 1) = 2 * 2 ^ (l - 52) := by
          rw [zpow_add_one₀ (by norm_num)]; ring
        rw [this]
        linarith
      · have e2 : ((2 ^ 52 : Nat) : ℚ) * 2 ^ (l - 52 + 1) = ((2 ^ 53 : Nat) : ℚ) * 2 ^ (l - 52) := by
          rw [zpow_add_one₀ (by norm_num)]
          push_cast
          ring
        rw [e2, ← h53]
        have : (2 : ℚ) ^ (l - 52 + 1) = 2 * 2 ^ (l - 52) := by
          rw [zpow_add_one₀ (by norm_num)]; ring
        rw [this]
        linarith
  · simp only [h53, if_false]
    by_cases hov : l - 52 > 971
    · left
      exact ⟨by simp [hov], by omega⟩
    · right
      exact ⟨mp, l - 52, by simp [hov], m1, by omega, le_refl _, v1, v2⟩

end Robokassa

namespace Robokassa

/-! ## The two-decimal text of a stored amount -/

theorem fmtFixed2_finite_data (m : Nat) (e : Int) :
    (fmtFixed2 (.finite false m e)).data =
      (natToString (hundredths m e / 100)).data ++
        ['.', digitChar (hundredths m e / 10 % 10), digitChar (hundredths m e % 10)] := by
  simp [fmtFixed2, twoDigits, String.data_append]

theorem fmtFixed2_finite_inj {m m' : Nat} {e e' : Int}
    (h : fmtFixed2 (.finite false m e) = fmtFixed2 (.finite false m' e')) :
    hundredths m e = hundredths m' e' := by
  have hd := congrArg String.data h
  rw [fmtFixed2_finite_data, fmtFixed2_finite_data] at hd
  obtain ⟨h1, h2⟩ := List.append_inj' hd rfl
  have e1 := natToString_injective (String.ext h1)
  simp only [List.cons.injEq, and_true, true_and] at h2
  have e2 := digitChar_injective (Nat.mod_lt _ (by decide)) (Nat.mod_lt _ (by decide)) h2.1
  have e3 := digitChar_injective (Nat.mod_lt _ (by decide)) (Nat.mod_lt _ (by decide)) h2.2
  omega

theorem fmtFixed2_inf_ne_finite (m : Nat) (e : Int) :
    fmtFixed2 (.inf false) ≠ fmtFixed2 (.finite false m e) := by
  intro h
  have hd := congrArg String.data h
  rw [fmtFixed2_finite_data] at hd
  obtain ⟨hne, hdig⟩ := natToString_digits (hundredths m e / 100)
  cases hds : (natToString (hundredths m e / 100)).data with
  | nil => exact hne hds
  | cons c cs =>
    rw [hds] at hd hdig
    have hc : c = '+' := by
      have : ['+', 'I', 'n', 'f'] = c :: (cs ++ ['.', digitChar (hundredths m e / 10 % 10),
          digitChar (hundredths m e % 10)]) := by
        simpa [fmtFixed2] using hd
      exact (List.cons.inj this).1.symm
    have := hdig c (List.mem_cons_self _ _)
    rw [hc] at this
    exact absurd this (by decide)

theorem decimal_log_bound (M : Nat) (hM : 0 < M) : -1074 ≤ Float64.ratLog2 M 100 - 52 := by
  obtain ⟨_, l2⟩ := ratLog2_spec M 100 hM (by decide)
  have hx : (2 : ℚ) ^ (-7 : Int) < (M : ℚ) / (100 : Nat) := by
    have : (1 : ℚ) ≤ M := by exact_mod_cast hM
    rw [lt_div_iff₀ (by norm_num)]
    have e : (2 : ℚ) ^ (-7 : Int) = 1 / 128 := by norm_num [zpow_neg]
    rw [e]
    push_cast
    linarith
  have := lt_trans hx l2
  have := (zpow_lt_zpow_iff_right₀ (by norm_num : (1 : ℚ) < 2)).mp this
  omega

/-- A stored amount with exponent at most `-7` has the hundredths it was made of. -/
theorem hundredths_small {M m : Nat} {e : Int} (he : e ≤ -7)
    (b1 : (M : ℚ) / (100 : Nat) - (2 : ℚ) ^ e / 2 ≤ (m : ℚ) * 2 ^ e)
    (b2 : (m : ℚ) * 2 ^ e ≤ (M : ℚ) / (100 : Nat) + (2 : ℚ) ^ e / 2) :
    hundredths m e = M := by
  obtain ⟨h1, h2⟩ := hundredths_spec m e
  have hp : (2 : ℚ) ^ e ≤ 1 / 128 := by
    have : (2 : ℚ) ^ e ≤ (2 : ℚ) ^ (-7 : Int) := zpow_le_zpow_right₀ (by norm_num) he
    have e7 : (2 : ℚ) ^ (-7 : Int) = 1 / 128 := by norm_num [zpow_neg]
    rw [e7] at this
    exact this
  have hx : (M : ℚ) / (100 : Nat) * 100 = M := by push_cast; field_simp
  have u1 : ((hundredths m e : Nat) : ℚ) < (M : ℚ) + 1 := by nlinarith
  have u2 : (M : ℚ) < ((hundredths m e : Nat) : ℚ) + 1 := by nlinarith
  have u1' : hundredths m e < M + 1 := by exact_mod_cast u1
  have u2' : M < hundredths m e + 1 := by exact_mod_cast u2
  omega

end Robokassa

namespace Robokassa

theorem normal_unique {m m' : Nat} {e e' : Int} (h1 : 2 ^ 52 ≤ m) (h2 : m < 2 ^ 53)
    (h1' : 2 ^ 52 ≤ m') (h2' : m' < 2 ^ 53)
    (hv : (m : ℚ) * 2 ^ e = (m' : ℚ) * 2 ^ e') : m = m' ∧ e = e' := by
  have q1 : ((2 ^ 52 : Nat) : ℚ) ≤ m := by exact_mod_cast h1
  have q2 : (m : ℚ) < ((2 ^ 53 : Nat) : ℚ) := by exact_mod_cast h2
  have q1' : ((2 ^ 52 : Nat) : ℚ) ≤ m' := by exact_mod_cast h1'
  have q2' : (m' : ℚ) < ((2 ^ 53 : Nat) : ℚ) := by exact_mod_cast h2'
  push_cast at q1 q2 q1' q2'
  have hpe : (0 : ℚ) < 2 ^ e := by positivity
  have hpe' : (0 : ℚ) < 2 ^ e' := by positivity
  have lo : ∀ (k : Nat) (x : Int), (2 : ℚ) ^ (x + (k : Int)) = 2 ^ k * 2 ^ x := by
    intro k x
    rw [zpow_add₀ (by norm_num), zpow_natCast]
    ring
  have a1 : (2 : ℚ) ^ (e + 52) ≤ (m : ℚ) * 2 ^ e := by
    rw [show (e + 52 : Int) = e + ((52 : Nat) : Int) by norm_num, lo]
    nlinarith
  have a2 : (m : ℚ) * 2 ^ e < (2 : ℚ) ^ (e + 52 + 1) := by
    rw [show (e + 52 + 1 : Int) = e + ((53 : Nat) : Int) by norm_num; omega, lo]
    nlinarith
  have b1 : (2 : ℚ) ^ (e' + 52) ≤ (m : ℚ) * 2 ^ e := by
    rw [hv, show (e' + 52 : Int) = e' + ((52 : Nat) : Int) by norm_num, lo]
    nlinarith
  have b2 : (m : ℚ) * 2 ^ e < (2 : ℚ) ^ (e' + 52 + 1) := by
    rw [hv, show (e' + 52 + 1 : Int) = e' + ((53 : Nat) : Int) by norm_num; omega, lo]
    nlinarith
  have he := zpow_two_unique _ _ _ a1 a2 b1 b2
  have he' : e = e' := by omega
  subst he'
  have : (m : ℚ) = m' := by
    have := mul_right_cancel₀ (ne_of_gt hpe) hv
    exact this
  exact ⟨by exact_mod_cast this, rfl⟩

/-- A mantissa with exponent at least `-6` is a whole number of sixty-fourths. -/
theorem grid64 (m : Nat) {e : Int} (he : -6 ≤ e) :
    ∃ A : Nat, (A : ℚ) = 64 * ((m : ℚ) * 2 ^ e) := by
  refine ⟨m * 2 ^ (e + 6).toNat, ?_⟩
  have h6 : ((e + 6).toNat : Int) = e + 6 := Int.toNat_of_nonneg (by omega)
  have : (2 : ℚ) ^ (e + 6).toNat = 2 ^ e * 64 := by
    rw [← zpow_natCast, h6, zpow_add₀ (by norm_num)]
    norm_num
  push_cast
  rw [this]
  ring

theorem hundredths_large_inj {m m' : Nat} {e e' : Int} (he : -6 ≤ e) (he' : -6 ≤ e')
    (h : hundredths m e = hundredths m' e') : (m : ℚ) * 2 ^ e = (m' : ℚ) * 2 ^ e' := by
  obtain ⟨A, hA⟩ := grid64 m he
  obtain ⟨A', hA'⟩ := grid64 m' he'
  obtain ⟨h1, h2⟩ := hundredths_spec m e
  obtain ⟨h1', h2'⟩ := hundredths_spec m' e'
  rw [h] at h1 h2
  have hAA : A = A' := by
    rcases Nat.lt_trichotomy A A' with c | c | c
    · exfalso
      have : ((A + 1 : Nat) : ℚ) ≤ A' := by exact_mod_cast c
      push_cast at this
      nlinarith
    · exact c
    · exfalso
      have : ((A' + 1 : Nat) : ℚ) ≤ A := by exact_mod_cast c
      push_cast at this
      nlinarith
  have : (A : ℚ) = A' := by exact_mod_cast hAA
  rw [hA, hA'] at this
  linarith

theorem hundredths_mixed {M m m' : Nat} {e e' : Int} (he : e ≤ -7) (he' : -6 ≤ e')
    (hm : m < 2 ^ 53) (hm' : 2 ^ 52 ≤ m')
    (b1 : (M : ℚ) / (100 : Nat) - (2 : ℚ) ^ e / 2 ≤ (m : ℚ) * 2 ^ e)
    (b2 : (m : ℚ) * 2 ^ e ≤ (M : ℚ) / (100 : Nat) + (2 : ℚ) ^ e / 2) :
    hundredths m e ≠ hundredths m' e' := by
  intro h
  have hM := hundredths_small he b1 b2
  obtain ⟨h1', h2'⟩ := hundredths_spec m' e'
  rw [← h, hM] at h1' h2'
  have q : ((m + 1 : Nat) : ℚ) ≤ ((2 ^ 53 : Nat) : ℚ) := by exact_mod_cast hm
  have q' : ((2 ^ 52 : Nat) : ℚ) ≤ m' := by exact_mod_cast hm'
  push_cast at q q'
  have hpe : (0 : ℚ) < 2 ^ e := by positivity
  have hp : (2 : ℚ) ^ e ≤ 1 / 128 := by
    have : (2 : ℚ) ^ e ≤ (2 : ℚ) ^ (-7 : Int) := zpow_le_zpow_right₀ (by norm_num) he
    have e7 : (2 : ℚ) ^ (-7 : Int) = 1 / 128 := by norm_num [zpow_neg]
    rw [e7] at this
    exact this
  have hp' : (1 : ℚ) / 64 ≤ 2 ^ e' := by
    have : (2 : ℚ) ^ (-6 : Int) ≤ (2 : ℚ) ^ e' := zpow_le_zpow_right₀ (by norm_num) he'
    have e6 : (2 : ℚ) ^ (-6 : Int) = 1 / 64 := by norm_num [zpow_neg]
    rw [e6] at this
    exact this
  have hx : (M : ℚ) / (100 : Nat) * 100 = M := by push_cast; field_simp
  -- the amount lies below 2^46, the other value at or above it
  have x1 : (M : ℚ) / (100 : Nat) ≤ ((2 : ℚ) ^ 53 - 1 / 2) * 2 ^ e := by nlinarith
  have x2 : ((2 : ℚ) ^ 53 - 1 / 2) * 2 ^ e ≤ ((2 : ℚ) ^ 53 - 1 / 2) * (1 / 128) := by
    apply mul_le_mul_of_nonneg_left hp
    norm_num
  have v' : (2 : ℚ) ^ 52 * (1 / 64) ≤ (m' : ℚ) * 2 ^ e' := by
    apply mul_le_mul q' hp' (by norm_num) (by positivity)
  have c1 : (M : ℚ) ≤ ((2 : ℚ) ^ 53 - 1 / 2) * (1 / 128) * 100 := by nlinarith
  have c2 : 100 * ((2 : ℚ) ^ 52 * (1 / 64)) - 1 / 2 ≤ (M : ℚ) := by nlinarith
  norm_num at c1 c2
  have d1 : (M : ℚ) < ((7036874417766400 : Nat) : ℚ) := by
    push_cast
    linarith
  have d2 : ((7036874417766399 : Nat) : ℚ) < (M : ℚ) := by
    push_cast
    linarith
  have d1' : M < 7036874417766400 := by exact_mod_cast d1
  have d2' : 7036874417766399 < M := by exact_mod_cast d2
  omega

end Robokassa

namespace Robokassa

theorem decimal_text_injective {M M' : Nat} (hM : 0 < M) (hM' : 0 < M')
    (h : fmtFixed2 (decimal M 100) = fmtFixed2 (decimal M' 100)) :
    decimal M 100 = decimal M' 100 := by
  unfold decimal at h ⊢
  rcases ofRat_spec M 100 hM (by decide) (decimal_log_bound M hM) with
    ⟨i1, _⟩ | ⟨m, e, f1, m1, m2, _, b1, b2⟩ <;>
  rcases ofRat_spec M' 100 hM' (by decide) (decimal_log_bound M' hM') with
    ⟨i2, _⟩ | ⟨m', e', f2, m1', m2', _, b1', b2'⟩
  · rw [i1, i2]
  · rw [i1, f2] at h
    exact absurd h (fmtFixed2_inf_ne_finite _ _)
  · rw [f1, i2] at h
    exact absurd h.symm (fmtFixed2_inf_ne_finite _ _)
  · have hh : hundredths m e = hundredths m' e' := by
      rw [f1, f2] at h
      exact fmtFixed2_finite_inj h
    by_cases he : e ≤ -7
    · by_cases he' : e' ≤ -7
      · have e1 := hundredths_small he b1 b2
        have e2 := hundredths_small he' b1' b2'
        have : M = M' := by omega
        rw [this]
      · exact absurd hh (hundredths_mixed he (by omega) m2 m1' b1 b2)
    · by_cases he' : e' ≤ -7
      · exact absurd hh.symm (hundredths_mixed he' (by omega) m2' m1 b1' b2')
      · have hv := hundredths_large_inj (by omega) (by omega) hh
        obtain ⟨em, ee⟩ := normal_unique m1 m2 m1' m2' hv
        rw [f1, f2, em, ee]

theorem wrapInt64_range (n : Int) : -(2 ^ 63 : Int) ≤ wrapInt64 n ∧ wrapInt64 n < 2 ^ 63 := by
  unfold wrapInt64
  have h1 := Int.emod_nonneg (n + 2 ^ 63) (by norm_num : (2 ^ 64 : Int) ≠ 0)
  have h2 := Int.emod_lt_of_pos (n + 2 ^ 63) (by norm_num : (0 : Int) < 2 ^ 64)
  constructor <;> omega

theorem toInt_range (outOfRange : Float64 → Int) (x : Float64) :
    -(2 ^ 63 : Int) ≤ toInt outOfRange x ∧ toInt outOfRange x < 2 ^ 63 := by
  unfold toInt
  cases hx : x.toInt? with
  | none => exact wrapInt64_range _
  | some n =>
    simp only []
    cases x with
    | nan => simp [Float64.toInt?] at hx
    | inf neg => simp [Float64.toInt?] at hx
    | finite neg mant exp =>
      simp only [Float64.toInt?, Option.ite_none_right_eq_some, Option.some.injEq] at hx
      obtain ⟨hr, rfl⟩ := hx
      exact hr

theorem ofRat_true_not_pos (num den : Nat) : (Float64.ofRat true num den).gtZero = false := by
  unfold Float64.ofRat
  simp only []
  split_ifs <;> simp [Float64.gtZero]

theorem div_neg_not_pos (x : Float64) (hx : ∃ m e, x = .finite true m e ∨ x = .inf true) :
    (Float64.div x hundred).gtZero = false := by
  obtain ⟨m, e, h | h⟩ := hx
  · rw [h]
    simp only [Float64.div, hundred]
    simp [ofRat_true_not_pos]
  · rw [h]
    simp [Float64.div, hundred, Float64.gtZero]

theorem ofRat_true_form (num den : Nat) :
    ∃ m e, Float64.ofRat true num den = .finite true m e ∨ Float64.ofRat true num den = .inf true := by
  unfold Float64.ofRat
  simp only []
  split_ifs
  all_goals first
    | exact ⟨_, _, Or.inl rfl⟩
    | exact ⟨0, 0, Or.inr rfl⟩

theorem div_ofInt_nonpos {n : Int} (hn : n ≤ 0) :
    (Float64.div (Float64.ofInt n) hundred).gtZero = false := by
  by_cases h : n < 0
  · unfold Float64.ofInt
    simp only [h, decide_True]
    exact div_neg_not_pos _ (ofRat_true_form _ _)
  · have h0 : n = 0 := by omega
    subst h0
    decide

end Robokassa

namespace Robokassa

theorem ofInt_pos_spec {n : Int} (h0 : 0 < n) (h63 : n < 2 ^ 63) :
    ∃ (m : Nat) (e : Int) (M D : Nat), Float64.ofInt n = .finite false m e ∧ 0 < M ∧ 0 < D ∧
      Float64.scaleNum m e = D * M ∧ Float64.scaleDen e = D := by
  have hN : 0 < n.natAbs := Int.natAbs_pos.mpr (by omega)
  have hneg : ¬ n < 0 := by omega
  obtain ⟨l1, l2⟩ := ratLog2_spec n.natAbs 1 hN (by decide)
  have hNq : (1 : ℚ) ≤ (n.natAbs : ℚ) := by exact_mod_cast hN
  have hN63 : (n.natAbs : ℚ) < (2 : ℚ) ^ (63 : Int) := by
    have : n.natAbs < 2 ^ 63 := by omega
    have : ((n.natAbs : Nat) : ℚ) < ((2 ^ 63 : Nat) : ℚ) := by exact_mod_cast this
    push_cast at this
    exact_mod_cast this
  simp only [Nat.cast_one, div_one] at l1 l2
  have lb : 0 ≤ Float64.ratLog2 n.natAbs 1 := by
    have : (2 : ℚ) ^ (0 : Int) < (2 : ℚ) ^ (Float64.ratLog2 n.natAbs 1 + 1) := by
      rw [zpow_zero]
      linarith
    have := (zpow_lt_zpow_iff_right₀ (by norm_num : (1 : ℚ) < 2)).mp this
    omega
  have ub : Float64.ratLog2 n.natAbs 1 < 63 :=
    (zpow_lt_zpow_iff_right₀ (by norm_num : (1 : ℚ) < 2)).mp (lt_of_le_of_lt l1 hN63)
  unfold Float64.ofInt
  simp only [hneg, decide_False]
  rcases ofRat_spec n.natAbs 1 hN (by decide) (by omega) with
    ⟨_, hov⟩ | ⟨m, e, f1, m1, m2, _, b1, b2⟩
  · omega
  · simp only [Nat.cast_one, div_one] at b1 b2
    cases e with
    | ofNat k =>
      refine ⟨m, Int.ofNat k, m * 2 ^ k, 1, f1, by positivity, by decide, ?_, rfl⟩
      simp [Float64.scaleNum]
    | negSucc k =>
      refine ⟨m, Int.negSucc k, n.natAbs, 2 ^ (k + 1), f1, hN, by positivity, ?_, rfl⟩
      simp only [Float64.scaleNum]
      rw [zpow_negSucc] at b1 b2
      have hp : (0 : ℚ) < 2 ^ (k + 1) := by positivity
      have hPI : (2 : ℚ) ^ (k + 1) * ((2 : ℚ) ^ (k + 1))⁻¹ = 1 := mul_inv_cancel₀ (ne_of_gt hp)
      generalize hPdef : (2 : ℚ) ^ (k + 1) = P at b1 b2 hp hPI
      generalize P⁻¹ = I at b1 b2 hPI
      have c1 : (P * n.natAbs) - 1 / 2 ≤ m := by
        have h1 := mul_le_mul_of_nonneg_left b1 (le_of_lt hp)
        have e1 : P * ((n.natAbs : ℚ) - I / 2) = P * n.natAbs - (P * I) / 2 := by ring
        have e2 : P * ((m : ℚ) * I) = m * (P * I) := by ring
        rw [e1, e2, hPI] at h1
        linarith
      have c2 : (m : ℚ) ≤ (P * n.natAbs) + 1 / 2 := by
        have h1 := mul_le_mul_of_nonneg_left b2 (le_of_lt hp)
        have e1 : P * ((n.natAbs : ℚ) + I / 2) = P * n.natAbs + (P * I) / 2 := by ring
        have e2 : P * ((m : ℚ) * I) = m * (P * I) := by ring
        rw [e1, e2, hPI] at h1
        linarith
      have d1 : ((2 ^ (k + 1) * n.natAbs : Nat) : ℚ) < ((m + 1 : Nat) : ℚ) := by
        push_cast
        rw [hPdef]
        linarith
      have d2 : ((m : Nat) : ℚ) < ((2 ^ (k + 1) * n.natAbs + 1 : Nat) : ℚ) := by
        push_cast
        rw [hPdef]
        linarith
      have d1' : 2 ^ (k + 1) * n.natAbs < m + 1 := by exact_mod_cast d1
      have d2' : m < 2 ^ (k + 1) * n.natAbs + 1 := by exact_mod_cast d2
      omega

/-- What `SetSum` stores is the float64 of a decimal with two fractional digits. -/
theorem storable_is_decimal (outOfRange : Float64 → Int) (sum : Float64)
    (h : (truncate2 outOfRange sum).gtZero = true) :
    ∃ M : Nat, 0 < M ∧ truncate2 outOfRange sum = decimal M 100 := by
  unfold truncate2 at h ⊢
  generalize hn : toInt outOfRange (Float64.mul sum hundred) = n at h ⊢
  have hr := toInt_range outOfRange (Float64.mul sum hundred)
  rw [hn] at hr
  have hpos : 0 < n := by
    by_contra hc
    rw [div_ofInt_nonpos (by omega)] at h
    exact absurd h (by decide)
  obtain ⟨m, e, M, D, f, hM, hD, hnum, hden⟩ := ofInt_pos_spec hpos hr.2
  refine ⟨M, hM, ?_⟩
  rw [f]
  have h100 : (100 : Nat) ≠ 0 := by decide
  simp only [Float64.div, hundred, h100, if_false, hnum, hden]
  have e1 : Float64.scaleDen 0 = 1 := rfl
  have e2 : Float64.scaleNum 100 0 = 100 := by decide
  rw [e1, e2, Nat.mul_one]
  exact ofRat_scale false D M 100 hD (by decide)

end Robokassa

namespace Robokassa

theorem validFields_mapSet_other {p : Payment} {a : Float64} {desc : String} {inv : Int}
    {receipt : String} (h : ValidFields p a desc inv receipt) (k : String) (v : Value)
    (n1 : "OutSum" ≠ k) (n2 : "Desc" ≠ k) (n3 : "InvId" ≠ k) (n4 : "Receipt" ≠ k) :
    ValidFields { p with data := mapSet p.data k v } a desc inv receipt := by
  obtain ⟨h1, h2, h3, h4, h5, h6, h7, h8⟩ := h
  refine ⟨?_, h2, ?_, h4, ?_, h6, ?_, h8⟩
  · rw [← h1]; exact mapIndex_mapSet_other _ _ _ _ n1
  · rw [← h3]; exact mapIndex_mapSet_other _ _ _ _ n2
  · rw [← h5]; exact mapIndex_mapSet_other _ _ _ _ n3
  · rw [← h7]; exact mapIndex_mapSet_other _ _ _ _ n4

theorem validFields_setAmount {p : Payment} {a : Float64} {desc : String} {inv : Int}
    {receipt : String} (h : ValidFields p a desc inv receipt) (a' : Float64)
    (ha : a'.gtZero = true) :
    ValidFields { p with data := mapSet p.data "OutSum" (.float a') } a' desc inv receipt := by
  obtain ⟨h1, h2, h3, h4, h5, h6, h7, h8⟩ := h
  refine ⟨mapIndex_mapSet_same _ _ _, ha, ?_, h4, ?_, h6, ?_, h8⟩
  · rw [← h3]; exact mapIndex_mapSet_other _ _ _ _ (by decide)
  · rw [← h5]; exact mapIndex_mapSet_other _ _ _ _ (by decide)
  · rw [← h7]; exact mapIndex_mapSet_other _ _ _ _ (by decide)

theorem validFields_setDesc {p : Payment} {a : Float64} {desc : String} {inv : Int}
    {receipt : String} (h : ValidFields p a desc inv receipt) (desc' : String)
    (hd : desc' ≠ "") : ValidFields (SetDescription p desc') a desc' inv receipt := by
  obtain ⟨h1, h2, h3, h4, h5, h6, h7, h8⟩ := h
  refine ⟨?_, h2, mapIndex_mapSet_same _ _ _, hd, ?_, h6, ?_, h8⟩
  · rw [← h1]; exact mapIndex_mapSet_other _ _ _ _ (by decide)
  · rw [← h5]; exact mapIndex_mapSet_other _ _ _ _ (by decide)
  · rw [← h7]; exact mapIndex_mapSet_other _ _ _ _ (by decide)

theorem validFields_setInv {p : Payment} {a : Float64} {desc : String} {inv : Int}
    {receipt : String} (h : ValidFields p a desc inv receipt) (inv' : Int) (hi : 0 < inv') :
    ValidFields (SetInvoiceId p inv') a desc inv' receipt := by
  obtain ⟨h1, h2, h3, h4, h5, h6, h7, h8⟩ := h
  refine ⟨?_, h2, ?_, h4, mapIndex_mapSet_same _ _ _, hi, ?_, h8⟩
  · rw [← h1]; exact mapIndex_mapSet_other _ _ _ _ (by decide)
  · rw [← h3]; exact mapIndex_mapSet_other _ _ _ _ (by decide)
  · rw [← h7]; exact mapIndex_mapSet_other _ _ _ _ (by decide)

theorem validFields_setReceipt {p : Payment} {a : Float64} {desc : String} {inv : Int}
    {receipt : String} (h : ValidFields p a desc inv receipt) (receipt' : String)
    (hr : receipt' ≠ "") :
    ValidFields { p with data := mapSet p.data "Receipt" (.str receipt') } a desc inv receipt' := by
  obtain ⟨h1, h2, h3, h4, h5, h6, h7, h8⟩ := h
  refine ⟨?_, h2, ?_, h4, ?_, h6, mapIndex_mapSet_same _ _ _, hr⟩
  · rw [← h1]; exact mapIndex_mapSet_other _ _ _ _ (by decide)
  · rw [← h3]; exact mapIndex_mapSet_other _ _ _ _ (by decide)
  · rw [← h5]; exact mapIndex_mapSet_other _ _ _ _ (by decide)

theorem signing_amount_differs {l a a' i r s t : String}
    (h : l ++ ":" ++ a ++ ":" ++ i ++ ":" ++ r ++ ":" ++ s ++ t =
      l ++ ":" ++ a' ++ ":" ++ i ++ ":" ++ r ++ ":" ++ s ++ t) : a = a' := by
  simp only [String.append_assoc] at h
  exact str_append_right_cancel (str_append_left_cancel (str_append_left_cancel h))

theorem signing_invoice_differs {l a i i' r s t : String}
    (h : l ++ ":" ++ a ++ ":" ++ i ++ ":" ++ r ++ ":" ++ s ++ t =
      l ++ ":" ++ a ++ ":" ++ i' ++ ":" ++ r ++ ":" ++ s ++ t) : i = i' := by
  simp only [String.append_assoc] at h
  exact str_append_right_cancel (str_append_left_cancel (str_append_left_cancel
    (str_append_left_cancel (str_append_left_cancel h))))

theorem signing_receipt_differs {l a i r r' s t : String}
    (h : l ++ ":" ++ a ++ ":" ++ i ++ ":" ++ r ++ ":" ++ s ++ t =
      l ++ ":" ++ a ++ ":" ++ i ++ ":" ++ r' ++ ":" ++ s ++ t) : r = r' := by
  simp only [String.append_assoc] at h
  exact str_append_right_cancel (str_append_left_cancel (str_append_left_cancel
    (str_append_left_cancel (str_append_left_cancel (str_append_left_cancel
      (str_append_left_cancel h))))))

theorem mapKeys_mapSet_of_mem {α : Type} (m : List (String × α)) (k : String) (v v' : α)
    (h : mapGet m k = some v) : mapKeys (mapSet m k v') = mapKeys m := by
  induction m with
  | nil => simp [mapGet] at h
  | cons kv rest ih =>
    obtain ⟨k1, v1⟩ := kv
    by_cases e : k1 = k
    · simp [mapSet, mapKeys, e]
    · simp only [mapGet, e, if_false] at h
      have := ih h
      simp only [mapKeys] at this
      simp [mapSet, mapKeys, e, this]

theorem concat_map_differs {ks : List String} (nd : ks.Nodup) {k : String} (hk : k ∈ ks)
    {f g : String → String} (hfg : ∀ x, x ≠ k → f x = g x)
    (h : concatStrings (ks.map f) = concatStrings (ks.map g)) : f k = g k := by
  induction ks with
  | nil => cases hk
  | cons x xs ih =>
    have nd' := List.nodup_cons.mp nd
    simp only [List.map_cons, concatStrings] at h
    by_cases e : x = k
    · subst e
      have hrest : xs.map f = xs.map g := by
        apply List.map_congr_left
        intro y hy
        exact hfg y (fun e' => nd'.1 (e' ▸ hy))
      rw [hrest] at h
      exact str_append_right_cancel h
    · rw [hfg x e] at h
      have hk' : k ∈ xs := by
        rcases List.mem_cons.mp hk with e' | e'
        · exact absurd e'.symm e
        · exact e'
      exact ih nd'.2 hk' (str_append_left_cancel h)

theorem signatureInput_param_differs {p : Payment} {a : Float64} {desc : String} {inv : Int}
    {receipt : String} (h : ValidFields p a desc inv receipt) (wf : MapWF p.customParams)
    {k v v' : String} (hk : mapGet p.customParams k = some v)
    (heq : signatureInput { p with customParams := mapSet p.customParams k v' } = signatureInput p) :
    v' = v := by
  have hv' : ValidFields { p with customParams := mapSet p.customParams k v' } a desc inv receipt := h
  rw [signatureInput_valid h, signatureInput_valid hv'] at heq
  have heq' := str_append_left_cancel (Except.ok.inj heq)
  simp only [mapKeys_mapSet_of_mem p.customParams k v v' hk] at heq'
  have hmem : k ∈ sortStrings (mapKeys p.customParams) :=
    (sortStrings_perm _).mem_iff.mpr ((mem_mapKeys_iff _ _).mpr ⟨v, hk⟩)
  have hnd : (sortStrings (mapKeys p.customParams)).Nodup :=
    (sortStrings_perm _).nodup_iff.mpr wf
  have hseg := concat_map_differs hnd hmem
    (f := signSegment (mapSet p.customParams k v')) (g := signSegment p.customParams)
    (fun x hx => by simp [signSegment, mapGet_mapSet_other _ _ _ _ hx]) heq'
  simp only [signSegment, mapGet_mapSet_same, hk, Option.getD_some] at hseg
  exact str_append_left_cancel hseg

/-- C15 (as stated, fails on the code): the description is not part of the signing string.
The example Payment and the same Payment with another valid description have the same
signing string and the same signature. -/
theorem C15_counterexample :
    ValidFields examplePayment (.finite false 100 0) "order" 7 "r" ∧
    ValidFields (SetDescription examplePayment "other") (.finite false 100 0) "other" 7 "r" ∧
    GetDescription (SetDescription examplePayment "other") ≠ GetDescription examplePayment ∧
    signatureInput (SetDescription examplePayment "other") = signatureInput examplePayment ∧
    getSignValue (SetDescription examplePayment "other") = getSignValue examplePayment := by
  have hs : signatureInput (SetDescription examplePayment "other") =
      signatureInput examplePayment := by decide
  refine ⟨by decide, by decide, by decide, hs, ?_⟩
  unfold getSignValue
  rw [hs]

theorem signatureInput_amount_differs {p : Payment} {a : Float64} {desc : String} {inv : Int}
    {receipt : String} (h : ValidFields p a desc inv receipt) (outOfRange0 : Float64 → Int)
    (sum0 : Float64) (hst : truncate2 outOfRange0 sum0 = a) (outOfRange : Float64 → Int)
    (sum : Float64) (hok : (SetSum outOfRange p sum).2 = none)
    (heq : signatureInput (SetSum outOfRange p sum).1 = signatureInput p) :
    GetSum (SetSum outOfRange p sum).1 = a := by
  have hg : (truncate2 outOfRange sum).gtZero = true := by
    by_contra hc
    have hc' : (truncate2 outOfRange sum).gtZero = false := by simpa using hc
    rw [SetSum_of_not_pos outOfRange p sum _ rfl hc'] at hok
    cases hok
  have hget := (SetSum_of_pos outOfRange p sum _ rfl hg).2
  have hstate : (SetSum outOfRange p sum).1 =
      { p with data := mapSet p.data "OutSum" (.float (truncate2 outOfRange sum)) } := by
    unfold SetSum
    simp only [hg, if_true]
  rw [hget]
  rw [hstate, signatureInput_valid h, signatureInput_valid (validFields_setAmount h _ hg)] at heq
  have htext := signing_amount_differs (Except.ok.inj heq)
  have ha : (truncate2 outOfRange0 sum0).gtZero = true := by rw [hst]; exact h.2.1
  obtain ⟨M, hM, e1⟩ := storable_is_decimal outOfRange sum hg
  obtain ⟨M0, hM0, e0⟩ := storable_is_decimal outOfRange0 sum0 ha
  rw [← hst, e0, e1] at htext ⊢
  exact decimal_text_injective hM hM0 htext

/-- C15 (amended): on a Payment with valid standard fields, each of these replacements,
everything else staying the same, changes the string that `getSignValue` hashes: the amount
by a different amount through `SetSum` (the amount of the Payment being one that `SetSum`
stored), the invoice id by another valid invoice id, the receipt by another valid receipt,
the value of one custom parameter by another value.  Replacing the description by another
valid description leaves the string and the signature unchanged. -/
theorem C15_signing_string_sensitivity (p : Payment) (a : Float64) (desc : String) (inv : Int)
    (receipt : String) (h : ValidFields p a desc inv receipt) (wf : MapWF p.customParams) :
    (∀ (outOfRange0 : Float64 → Int) (sum0 : Float64), truncate2 outOfRange0 sum0 = a →
      ∀ (outOfRange : Float64 → Int) (sum : Float64), (SetSum outOfRange p sum).2 = none →
      GetSum (SetSum outOfRange p sum).1 ≠ a →
      signatureInput (SetSum outOfRange p sum).1 ≠ signatureInput p) ∧
    (∀ inv' : Int, 0 < inv' → inv' ≠ inv →
      signatureInput (SetInvoiceId p inv') ≠ signatureInput p) ∧
    (∀ receipt' : String, receipt' ≠ "" → receipt' ≠ receipt →
      signatureInput { p with data := mapSet p.data "Receipt" (.str receipt') } ≠
        signatureInput p) ∧
    (∀ k v v' : String, mapGet p.customParams ("shp_" ++ k) = some v → v' ≠ v →
      signatureInput (AddCustomParameters p (some [(k, v')])).1 ≠ signatureInput p) ∧
    (∀ desc' : String, desc' ≠ "" →
      signatureInput (SetDescription p desc') = signatureInput p ∧
      getSignValue (SetDescription p desc') = getSignValue p) := by
  refine ⟨?_, ?_, ?_, ?_, ?_⟩
  · intro outOfRange0 sum0 hst outOfRange sum hok hne heq
    exact hne (signatureInput_amount_differs h outOfRange0 sum0 hst outOfRange sum hok heq)
  · intro inv' hi hne heq
    rw [signatureInput_valid h, signatureInput_valid (validFields_setInv h inv' hi)] at heq
    exact hne (intToString_injective (signing_invoice_differs (Except.ok.inj heq)))
  · intro receipt' hr hne heq
    rw [signatureInput_valid h, signatureInput_valid (validFields_setReceipt h receipt' hr)] at heq
    exact hne (signing_receipt_differs (Except.ok.inj heq))
  · intro k v v' hk hne heq
    exact hne (signatureInput_param_differs h wf hk heq)
  · intro desc' hd
    have h1 := signatureInput_valid h
    have h2 := signatureInput_valid (validFields_setDesc h desc' hd)
    refine ⟨h2.trans h1.symm, ?_⟩
    unfold getSignValue
    rw [h2.trans h1.symm]

/-- The Payment after `SetSum(100)`, as an instance of amended C15: `SetSum(20.05)` and
`SetInvoiceId(8)` change the signing string. -/
theorem C15_witness :
    ValidFields storedPayment (decimal 100 1) "order" 7 "r" ∧
    MapWF storedPayment.customParams ∧
    truncate2 amd64OutOfRange (decimal 100 1) = decimal 100 1 ∧
    (SetSum amd64OutOfRange storedPayment (decimal 2005 100)).2 = none ∧
    GetSum (SetSum amd64OutOfRange storedPayment (decimal 2005 100)).1 ≠ decimal 100 1 ∧
    signatureInput (SetSum amd64OutOfRange storedPayment (decimal 2005 100)).1 ≠
      signatureInput storedPayment ∧
    signatureInput (SetSum amd64OutOfRange storedPayment (decimal 2005 100)).1 =
      .ok "shop1:20.05:7:r:pw" ∧
    signatureInput (SetInvoiceId storedPayment 8) ≠ signatureInput storedPayment :=
  ⟨by decide, by decide, by decide, by decide, by decide,
    (C15_signing_string_sensitivity storedPayment (decimal 100 1) "order" 7 "r"
      (by decide) (by decide)).1 amd64OutOfRange (decimal 100 1) (by decide) amd64OutOfRange
      (decimal 2005 100) (by decide) (by decide),
    by decide,
    (C15_signing_string_sensitivity storedPayment (decimal 100 1) "order" 7 "r"
      (by decide) (by decide)).2.1 8 (by decide) (by decide)⟩

end Robokassa

namespace Robokassa

/-! ## The signing string and the custom parameters it covers -/

/-- The characters of the segments `:key=value` of a list of parameters. -/
theorem segments_data : ∀ l : List (String × String),
    (concatStrings (l.map fun kv => ":" ++ kv.1 ++ "=" ++ kv.2)).data =
      l.foldr (fun kv acc => ':' :: (kv.1.data ++ '=' :: kv.2.data) ++ acc) []
  | [] => rfl
  | kv :: rest => by
    simp only [List.map_cons, concatStrings, String.data_append, List.foldr_cons,
      segments_data rest]
    simp

theorem split_at_colon : ∀ (a a' r r' : List Char), ':' ∉ a → ':' ∉ a' →
    (r = [] ∨ ∃ t, r = ':' :: t) → (r' = [] ∨ ∃ t, r' = ':' :: t) →
    a ++ r = a' ++ r' → a = a' ∧ r = r'
  | [], [], _, _, _, _, _, _, h => ⟨rfl, by simpa using h⟩
  | [], c :: cs, r, r', _, h2, hr, _, h => by
    exfalso
    rcases hr with e | ⟨t, e⟩
    · simp [e] at h
    · rw [e] at h
      simp only [List.nil_append, List.cons_append, List.cons.injEq] at h
      exact h2 (by rw [← h.1]; exact List.mem_cons_self _ _)
  | c :: cs, [], r, r', h1, _, _, hr', h => by
    exfalso
    rcases hr' with e | ⟨t, e⟩
    · simp [e] at h
    · rw [e] at h
      simp only [List.nil_append, List.cons_append, List.cons.injEq] at h
      exact h1 (by rw [h.1]; exact List.mem_cons_self _ _)
  | c :: cs, c' :: cs', r, r', h1, h2, hr, hr', h => by
    simp only [List.cons_append, List.cons.injEq] at h
    have := split_at_colon cs cs' r r' (fun hm => h1 (List.mem_cons_of_mem _ hm))
      (fun hm => h2 (List.mem_cons_of_mem _ hm)) hr hr' h.2
    exact ⟨by rw [h.1, this.1], this.2⟩

theorem split_at_equals : ∀ (k k' v v' : List Char), '=' ∉ k → '=' ∉ k' →
    k ++ '=' :: v = k' ++ '=' :: v' → k = k' ∧ v = v'
  | [], [], _, _, _, _, h => ⟨rfl, by simpa using h⟩
  | [], c :: cs, _, _, _, h2, h => by
    exfalso
    simp only [List.nil_append, List.cons_append, List.cons.injEq] at h
    exact h2 (by rw [← h.1]; exact List.mem_cons_self _ _)
  | c :: cs, [], _, _, h1, _, h => by
    exfalso
    simp only [List.nil_append, List.cons_append, List.cons.injEq] at h
    exact h1 (by rw [h.1]; exact List.mem_cons_self _ _)
  | c :: cs, c' :: cs', v, v', h1, h2, h => by
    simp only [List.cons_append, List.cons.injEq] at h
    have := split_at_equals cs cs' v v' (fun hm => h1 (List.mem_cons_of_mem _ hm))
      (fun hm => h2 (List.mem_cons_of_mem _ hm)) h.2
    exact ⟨by rw [h.1, this.1], this.2⟩

theorem segments_start (l : List (String × String)) :
    l.foldr (fun kv acc => ':' :: (kv.1.data ++ '=' :: kv.2.data) ++ acc) [] = [] ∨
    ∃ t, l.foldr (fun kv acc => ':' :: (kv.1.data ++ '=' :: kv.2.data) ++ acc) [] = ':' :: t := by
  cases l with
  | nil => exact Or.inl rfl
  | cons kv rest => exact Or.inr ⟨_, rfl⟩

theorem segments_injective : ∀ (l1 l2 : List (String × String)), PlainParams l1 →
    PlainParams l2 →
    l1.foldr (fun kv acc => ':' :: (kv.1.data ++ '=' :: kv.2.data) ++ acc) [] =
      l2.foldr (fun kv acc => ':' :: (kv.1.data ++ '=' :: kv.2.data) ++ acc) [] →
    l1 = l2
  | [], [], _, _, _ => rfl
  | [], _ :: _, _, _, h => by simp at h
  | _ :: _, [], _, _, h => by simp at h
  | (k, v) :: r1, (k', v') :: r2, p1, p2, h => by
    have q1 := p1 (k, v) (List.mem_cons_self _ _)
    have q2 := p2 (k', v') (List.mem_cons_self _ _)
    have s1 := segments_start r1
    have s2 := segments_start r2
    rw [List.foldr_cons, List.foldr_cons] at h
    generalize hT1 :
      r1.foldr (fun kv acc => ':' :: (kv.1.data ++ '=' :: kv.2.data) ++ acc) [] = T1 at h s1
    generalize hT2 :
      r2.foldr (fun kv acc => ':' :: (kv.1.data ++ '=' :: kv.2.data) ++ acc) [] = T2 at h s2
    have h' : k.data ++ '=' :: (v.data ++ T1) = k'.data ++ '=' :: (v'.data ++ T2) := by
      simpa [List.append_assoc] using h
    clear h
    have hkv := split_at_equals _ _ _ _ q1.1 q2.1 h'
    have hs := split_at_colon _ _ _ _ q1.2 q2.2 s1 s2 hkv.2
    have hrest := segments_injective r1 r2
      (fun kv hkv' => p1 kv (List.mem_cons_of_mem _ hkv'))
      (fun kv hkv' => p2 kv (List.mem_cons_of_mem _ hkv')) (by rw [hT1, hT2]; exact hs.2)
    have ek : k = k' := String.ext hkv.1
    have ev : v = v' := String.ext hs.1
    rw [ek, ev, hrest]

theorem plainParams_perm {l1 l2 : List (String × String)} (h : l1.Perm l2)
    (hp : PlainParams l2) : PlainParams l1 :=
  fun kv hkv => hp kv (h.mem_iff.mp hkv)

set_option maxRecDepth 100000 in
/-- C20 (as stated, fails on the code): the custom parameter `shp_a = "1:shp_b=2"` alone and
the two custom parameters `shp_a = "1"`, `shp_b = "2"` give the same signing string and the
same signature, on Payments that agree on every other field; so do the parameter `shp_a=b`
with the value `c` and the parameter `shp_a` with the value `b=c`. -/
theorem C20_counterexample :
    ValidFields injectedPayment (.finite false 100 0) "order" 7 "r" ∧
    ValidFields twoParamPayment (.finite false 100 0) "order" 7 "r" ∧
    MapWF injectedPayment.customParams ∧ MapWF twoParamPayment.customParams ∧
    ¬ injectedPayment.customParams.Perm twoParamPayment.customParams ∧
    signatureInput injectedPayment = .ok "shop1:100.00:7:r:pw:shp_a=1:shp_b=2" ∧
    signatureInput twoParamPayment = .ok "shop1:100.00:7:r:pw:shp_a=1:shp_b=2" ∧
    getSignValue injectedPayment = getSignValue twoParamPayment ∧
    ValidFields equalsKeyPayment (.finite false 100 0) "order" 7 "r" ∧
    ValidFields equalsValuePayment (.finite false 100 0) "order" 7 "r" ∧
    ¬ equalsKeyPayment.customParams.Perm equalsValuePayment.customParams ∧
    signatureInput equalsKeyPayment = .ok "shop1:100.00:7:r:pw:shp_a=b=c" ∧
    signatureInput equalsValuePayment = .ok "shop1:100.00:7:r:pw:shp_a=b=c" := by
  refine ⟨by decide, by decide, by decide, by decide, by decide, by decide, by decide,
    by decide, by decide, by decide, by decide, by decide, by decide⟩

/-- C20 (amended): for two Payments with valid standard fields and the same login, amount,
invoice id, receipt and signing secret, whose custom parameters have no equals sign in a key
and no colon in a value, different sets of custom parameters give different strings to
hash: equal strings force the same set of pairs. -/
theorem C20_plain_parameters_determined (p q : Payment) (a : Float64) (desc desc' : String)
    (inv : Int) (receipt : String) (hp : ValidFields p a desc inv receipt)
    (hq : ValidFields q a desc' inv receipt) (hl : q.login = p.login)
    (hs : q.paymentPassword = p.paymentPassword) (wfp : MapWF p.customParams)
    (wfq : MapWF q.customParams) (pp : PlainParams p.customParams)
    (pq : PlainParams q.customParams) :
    (signatureInput p = signatureInput q → p.customParams.Perm q.customParams) ∧
    (¬ p.customParams.Perm q.customParams → signatureInput p ≠ signatureInput q) := by
  have main : signatureInput p = signatureInput q → p.customParams.Perm q.customParams := by
    intro h
    have s1 := signatureInput_valid hp
    have s2 := signatureInput_valid hq
    rw [s1, s2, hl, hs] at h
    have ht := str_append_left_cancel (Except.ok.inj h)
    have sp := sortedParams_spec wfp
    have sq := sortedParams_spec wfq
    have d1 := segments_data
      ((sortStrings (mapKeys p.customParams)).map fun k => (k, (mapGet p.customParams k).getD ""))
    have d2 := segments_data
      ((sortStrings (mapKeys q.customParams)).map fun k => (k, (mapGet q.customParams k).getD ""))
    rw [List.map_map] at d1 d2
    have hd := congrArg String.data ht
    have hd' : (concatStrings (List.map ((fun kv : String × String => ":" ++ kv.1 ++ "=" ++ kv.2) ∘
          fun k => (k, (mapGet p.customParams k).getD "")) (sortStrings (mapKeys p.customParams)))).data =
        (concatStrings (List.map ((fun kv : String × String => ":" ++ kv.1 ++ "=" ++ kv.2) ∘
          fun k => (k, (mapGet q.customParams k).getD "")) (sortStrings (mapKeys q.customParams)))).data :=
      hd
    rw [d1, d2] at hd'
    have := segments_injective _ _ (plainParams_perm sp.1 pp) (plainParams_perm sq.1 pq) hd'
    exact sp.1.symm.trans (this ▸ sq.1)
  exact ⟨main, fun hn he => hn (main he)⟩

/-- Two Payments with two parameters each, one of the keys holding a colon, as an instance
of amended C20. -/
theorem C20_witness :
    ValidFields colonKeyPayment (.finite false 100 0) "order" 7 "r" ∧
    ValidFields twoParamPayment (.finite false 100 0) "order" 7 "r" ∧
    PlainParams colonKeyPayment.customParams ∧ PlainParams twoParamPayment.customParams ∧
    ¬ colonKeyPayment.customParams.Perm twoParamPayment.customParams ∧
    signatureInput colonKeyPayment ≠ signatureInput twoParamPayment ∧
    signatureInput colonKeyPayment = .ok "shop1:100.00:7:r:pw:shp_a:b=1:shp_b=2" :=
  ⟨by decide, by decide, by decide, by decide, by decide,
    (C20_plain_parameters_determined colonKeyPayment twoParamPayment (.finite false 100 0)
      "order" "order" 7 "r" (by decide) (by decide) (by decide) (by decide) (by decide)
      (by decide) (by decide) (by decide)).2 (by decide),
    by decide⟩

end Robokassa
